import Mathlib

/-!
Verification of the conversation core of bot.py (AnzaBiz side-hustle bot):
the message chunker, the response sanitizer, the delivery retrier and the
conversation state machine of handle_message / callback_handler.

Strings are modelled as lists of characters where the text algorithms are
concerned, and as Lean strings in the state machine.  Machine integers do
not occur (Python integers are unbounded); callback idea numbers are Int
because Python int() accepts a sign.
-/

namespace Forge

/-! Character classes of the regexes in bot.py.  isPySpace is the set the
Python re module's backslash-s class and str.strip use; the ASCII part is
exact, the listed non-ASCII code points are the Unicode white-space set. -/

def isPySpace (c : Char) : Bool :=
  c == ' ' || c == '\t' || c == '\n' || c == '\x0b' || c == '\x0c' || c == '\r' ||
  c == '\x1c' || c == '\x1d' || c == '\x1e' || c == '\x1f' ||
  c == '\x85' || c == '\xa0' || c.toNat == 0x1680 ||
  (0x2000 ≤ c.toNat && c.toNat ≤ 0x200a) ||
  c.toNat == 0x2028 || c.toNat == 0x2029 || c.toNat == 0x202f ||
  c.toNat == 0x205f || c.toNat == 0x3000

/-- The two emphasis delimiter characters of the class [*_]. -/
def isDelim (c : Char) : Bool := c == '*' || c == '_'

/-- The character class that unbalances markup when glued to a delimiter:
everything that is neither white space nor a delimiter. -/
def isBad (c : Char) : Bool := !(isPySpace c) && !(isDelim c)

/-- ASCII range of the character class used by the non-ASCII stripping
substitution in clean_response. -/
def isAsciiC (c : Char) : Bool := c.toNat ≤ 0x7f

/-- ASCII decimal digits, the class matched by the heading regex. -/
def isDigitC (c : Char) : Bool := 48 ≤ c.toNat && c.toNat ≤ 57

/-! Line splitting and joining: text.split with the line break and the
line-break join used throughout bot.py. -/

/-- Model of Python text.split on the line-break character: always returns a
non-empty list, keeps empty pieces. -/
def splitNl : List Char → List (List Char)
  | [] => [[]]
  | '\n' :: r => [] :: splitNl r
  | c :: r =>
    match splitNl r with
    | h :: t => (c :: h) :: t
    | [] => [[c]]

/-- Model of joining a list of lines with a single line break. -/
def joinNl : List (List Char) → List Char
  | [] => []
  | [l] => l
  | l :: ls => l ++ '\n' :: joinNl ls

/-- Model of Python str.strip: drop white space from both ends. -/
def pyStrip (l : List Char) : List Char :=
  (((l.dropWhile isPySpace).reverse.dropWhile isPySpace)).reverse

/-! The response sanitizer clean_response, one regex substitution at a
time.  The first substitution rewrites header-style lines, with the exact
backtracking behaviour of the greedy white-space run followed by the
one-or-more non-newline group. -/

/-- Attempt to match the heading pattern (a run of number signs, a space, a
digit run, a period, optional white space, then at least one non-newline
character) at the head of the list.  Returns the captured group and the
remainder after the match. -/
def try1 (l : List Char) : Option (List Char × List Char) :=
  let hs := l.takeWhile (fun c => c == '#')
  if hs.isEmpty then none else
  match l.drop hs.length with
  | ' ' :: r2 =>
    let ds := r2.takeWhile isDigitC
    if ds.isEmpty then none else
    (match r2.drop ds.length with
     | '.' :: r4 =>
       let w := r4.takeWhile isPySpace
       (match r4.drop w.length with
        | c :: r5 =>
          let g := (c :: r5).takeWhile (fun d => !(d == '\n'))
          some (g, (c :: r5).drop g.length)
        | [] =>
          -- the greedy white-space run has to give characters back to the
          -- group; only a trailing non-newline white-space character can
          -- serve, anything behind further newlines is unreachable
          let t := w.reverse.takeWhile (fun d => d == '\n')
          let w2 := (w.reverse.drop t.length).reverse
          match w2.getLast? with
          | some d => some ([d], t.reverse)
          | none => none)
     | _ => none)
  | _ => none

/-- The header-rewriting substitution of clean_response, driven by fuel;
clean_response supplies the list length as fuel, which always suffices
because every step consumes at least one character. -/
def sub1Fuel : Nat → List Char → List Char
  | 0, l => l
  | _ + 1, [] => []
  | fuel + 1, c :: r =>
    if c == '#' then
      match try1 (c :: r) with
      | some (g, rest) => '*' :: '*' :: (g ++ '*' :: '*' :: sub1Fuel fuel rest)
      | none => c :: sub1Fuel fuel r
    else c :: sub1Fuel fuel r

/-- The delimiter-spacing substitution of clean_response: one or two
delimiters immediately followed by a non-space non-delimiter character get
a separating space, scanning left to right and resuming after each
replacement, with the backtracking of the greedy counted class. -/
def sub2 : List Char → List Char
  | [] => []
  | [c] => [c]
  | c1 :: c2 :: rest =>
    if isDelim c1 then
      if isDelim c2 then
        match rest with
        | c3 :: rest3 =>
          if isBad c3 then c1 :: c2 :: ' ' :: c3 :: sub2 rest3
          else c1 :: sub2 (c2 :: c3 :: rest3)
        | [] => [c1, c2]
      else if isBad c2 then c1 :: ' ' :: c2 :: sub2 rest
      else c1 :: sub2 (c2 :: rest)
    else c1 :: sub2 (c2 :: rest)

/-- The non-ASCII stripping substitution of clean_response: every maximal
run of non-ASCII characters becomes a single space.  The flag records
whether the previous character was part of such a run. -/
def sub3Go : Bool → List Char → List Char
  | _, [] => []
  | prev, c :: r =>
    if isAsciiC c then c :: sub3Go false r
    else if prev then sub3Go true r
    else ' ' :: sub3Go true r

def sub3 (l : List Char) : List Char := sub3Go false l

/-- The final step of clean_response: strip every line, drop the lines that
become empty, rejoin with single line breaks. -/
def normalizeLines (l : List Char) : List Char :=
  joinNl (((splitNl l).map pyStrip).filter (fun t => ¬ t = []))

/-- clean_response from bot.py: header rewriting, delimiter spacing,
non-ASCII stripping, then line normalization. -/
def clean_response (l : List Char) : List Char :=
  normalizeLines (sub3 (sub2 (sub1Fuel l.length l)))

/-! extract_idea_headings: per line, match two delimiters, a lazy
one-or-more non-newline group, then two delimiters again, at the start of
the line; strip the group; keep at most three. -/

/-- The lazy group of the heading-extraction regex: the shortest non-empty
newline-free prefix that is followed by two asterisks. -/
def lazyCore : List Char → Option (List Char)
  | [] => none
  | c :: rest =>
    if c == '\n' then none
    else
      match rest with
      | '*' :: '*' :: _ => some [c]
      | _ => (lazyCore rest).map (fun g => c :: g)

/-- Match the bold-heading pattern at the start of a line, returning the
captured group. -/
def matchHeading (line : List Char) : Option (List Char) :=
  match line with
  | '*' :: '*' :: rest => lazyCore rest
  | _ => none

/-- extract_idea_headings from bot.py. -/
def extract_idea_headings (l : List Char) : List (List Char) :=
  (((splitNl l).filterMap (fun line => (matchHeading line).map pyStrip))).take 3

/-! split_message: greedy line accumulation under the length bound. -/

/-- The loop of split_message: lines still to place, the current part and
its running length (each line counts its length plus one for the break). -/
def smGo (maxLength : Nat) : List (List Char) → List (List Char) → Nat → List (List Char)
  | [], cur, _ => if cur = [] then [] else [joinNl cur]
  | line :: rest, cur, curLen =>
    if curLen + line.length + 1 > maxLength then
      joinNl cur :: smGo maxLength rest [line] (line.length + 1)
    else
      smGo maxLength rest (cur ++ [line]) (curLen + line.length + 1)

/-- split_message from bot.py. -/
def split_message (text : List Char) (maxLength : Nat) : List (List Char) :=
  smGo maxLength (splitNl text) [] 0

/-! The delivery retrier retry_send_message.  The wrapped action is
modelled as a map from the attempt index to an outcome; exceptions carry
the class that decides whether the except clause catches them.  The trace
records how often the action ran, the sleep durations, and how many
warning and error log lines the function wrote. -/

inductive ExcKind
  | reqExc   -- requests.exceptions.RequestException, the transient transport class
  | apiExc   -- telebot.apihelper.ApiTelegramException, the chat API error class
  | otherExc -- any exception outside the except clause
deriving DecidableEq, Repr

inductive Outcome (A : Type)
  | ok (a : A)
  | exc (k : ExcKind)
deriving DecidableEq, Repr

inductive RetRes (A : Type)
  | ret (a : Option A)
  | raised (k : ExcKind)
deriving DecidableEq, Repr

structure RetryTrace (A : Type) where
  calls : Nat
  sleeps : List Nat
  warnLogs : Nat
  errLogs : Nat
  result : RetRes A
deriving DecidableEq, Repr

/-- Which exception classes the except clause of retry_send_message
catches. -/
def isCaught : ExcKind → Bool
  | .reqExc => true
  | .apiExc => true
  | .otherExc => false

/-- The retry loop: attempt is the current index, rem the remaining loop
iterations (retries minus attempt). -/
def retryAux {A : Type} (action : Nat → Outcome A) (retries delay : Nat) :
    Nat → Nat → RetryTrace A
  | _, 0 => ⟨0, [], 0, 0, .ret none⟩
  | attempt, rem + 1 =>
    match action attempt with
    | .ok a => ⟨1, [], 0, 0, .ret (some a)⟩
    | .exc k =>
      if isCaught k then
        if attempt < retries - 1 then
          let t := retryAux action retries delay (attempt + 1) rem
          ⟨t.calls + 1, delay * 2 ^ attempt :: t.sleeps, t.warnLogs + 1, t.errLogs, t.result⟩
        else
          ⟨1, [], 1, 1, .raised k⟩
      else
        ⟨1, [], 0, 0, .raised k⟩

/-- retry_send_message from bot.py, with its loop unrolled from attempt
zero. -/
def retry_send_message {A : Type} (action : Nat → Outcome A) (retries delay : Nat) :
    RetryTrace A :=
  retryAux action retries delay 0 retries

/-! The conversation state machine.  The store is modelled per user: the
Option Session is the user_data entry of the user the inbound event
belongs to (the handlers only ever touch that one entry).  The Gemini
client is an oracle from the prompt to an optional response text; none
covers both a raised error and an empty response, which bot.py turns into
a raised error itself inside the same try block.  Outbound sends are
collected in a message list and always succeed (transport failures live in
the retrier model above).  An unexpected fault (KeyError, ValueError,
IndexError) aborts the handler body with the store as mutated so far; the
top-level guard of each handler decides what happens then. -/

inductive PState
  | skills | location | budget | goals | askQuestion | exploreIdea | customIdea
deriving DecidableEq, Repr

structure Session where
  state : PState
  skills : Option String := none
  location : Option String := none
  budget : Option String := none
  goals : Option String := none
  ideas : Option String := none
  ideaHeadings : Option (List String) := none
  exploredIdeas : Option (List Int) := none
  customIdea : Option String := none
  question : Option String := none
deriving DecidableEq, Repr

/-- The outcome of one handler run: the user's store entry afterwards, the
texts sent to the chat in order, and whether an unexpected fault escaped
the handler body into its top-level guard. -/
structure HOut where
  store : Option Session
  msgs : List String
  fault : Bool
deriving DecidableEq, Repr

abbrev Gen := String → Option String

/-! String helpers mirroring the Python expressions of bot.py. -/

/-- Python str.startswith. -/
def strStarts (s p : String) : Bool := p.data.isPrefixOf s.data

/-- data.split on the underscore, last piece: everything after the last
underscore (the whole string when there is none). -/
def lastSeg (s : String) : String :=
  ⟨(s.data.reverse.takeWhile (fun c => !(c == '_'))).reverse⟩

/-- Base codepoints of the Unicode decimal-digit runs (category Nd): each
run is the ten codepoints base .. base+9 carrying the values 0 .. 9.
Python int() accepts exactly these characters as digits. -/
def ndBases : List Nat :=
  [48, 1632, 1776, 1984, 2406, 2534, 2662, 2790, 2918, 3046, 3174, 3302,
   3430, 3558, 3664, 3792, 3872, 4160, 4240, 6112, 6160, 6470, 6608, 6784,
   6800, 6992, 7088, 7232, 7248, 42528, 43216, 43264, 43472, 43504, 43600,
   44016, 65296, 66720, 68912, 69734, 69872, 69942, 70096, 70384, 70736,
   70864, 71248, 71360, 71472, 71904, 72016, 72784, 73040, 73120, 92768,
   92864, 93008, 120782, 120792, 120802, 120812, 120822, 123200, 123632,
   125264, 130032]

/-- Decimal value of a Unicode decimal digit (category Nd), none for any
other character. -/
def decDigit (c : Char) : Option Nat :=
  ndBases.findSome? (fun b =>
    if b ≤ c.toNat && c.toNat ≤ b + 9 then some (c.toNat - b) else none)

/-- The white space Python int() strips around a numeral: the str.strip
set without the four separator controls 1c-1f, which int() rejects. -/
def isIntSpace (c : Char) : Bool :=
  isPySpace c && !(0x1c ≤ c.toNat && c.toNat ≤ 0x1f)

/-- The digit tail after a first digit has been read: further decimal
digits, with single underscores allowed between two digits only. -/
def intRest : List Char → Nat → Option Nat
  | [], acc => some acc
  | '_' :: r, acc =>
    match r with
    | [] => none
    | c :: r2 =>
      match decDigit c with
      | some d => intRest r2 (acc * 10 + d)
      | none => none
  | c :: r, acc =>
    match decDigit c with
    | some d => intRest r (acc * 10 + d)
    | none => none

/-- A non-empty digit run with grouping underscores, as accepted by
Python int() after sign and white space. -/
def intDigits : List Char → Option Nat
  | [] => none
  | c :: r =>
    match decDigit c with
    | some d => intRest r d
    | none => none

/-- Python int() on a string: optional surrounding white space, one
optional ASCII sign, then at least one Unicode decimal digit (any Nd
character), with single underscores permitted between digits; anything
else raises (none). -/
def pyInt (s : String) : Option Int :=
  let t := ((s.data.dropWhile isIntSpace).reverse.dropWhile isIntSpace).reverse
  match t with
  | '-' :: ds => (intDigits ds).map (fun v => -(v : Int))
  | '+' :: ds => (intDigits ds).map (fun v => (v : Int))
  | ds => (intDigits ds).map (fun v => (v : Int))

/-- Python list indexing with negative indices counting from the end;
none is an IndexError. -/
def pyIndex {α : Type} (l : List α) (i : Int) : Option α :=
  let j : Int := if i < 0 then (l.length : Int) + i else i
  if j < 0 then none else l.get? j.toNat

/-- Python lower() restricted to ASCII case mapping (the substrings being
searched are digits and commas, so this is exact where it matters). -/
def pyLower (s : String) : String := ⟨s.data.map Char.toLower⟩

/-- Python substring containment (x in s). -/
def containsSub (needle : List Char) : List Char → Bool
  | [] => needle.isEmpty
  | c :: t => needle.isPrefixOf (c :: t) || containsSub needle t

/-! The prompt templates, interpolated exactly as the f-strings of
bot.py. -/

def ideasPrompt (location skills budget goals : String) : String :=
  "Generate 3 concise side hustle ideas for someone in " ++ location ++
  " with skills in " ++ skills ++ ", a budget of " ++ budget ++
  " KES, and goals of " ++ goals ++
  ". Each idea should be under 100 words, use bold Markdown (**Idea 1: Title**, **Idea 2: Title**, **Idea 3: Title**) for headings, and include single newlines between ideas and paragraphs for readability. Avoid ### or other headers. Use only ASCII characters."

def evalPrompt (location skills budget goals idea : String) : String :=
  "Evaluate the following side hustle idea for someone in " ++ location ++
  " with skills in " ++ skills ++ ", a budget of " ++ budget ++
  " KES, and goals of " ++ goals ++ ": " ++ idea ++
  ". Provide a concise feasibility analysis (under 150 words) with steps to start, potential challenges, and budget use. Use Markdown for readability, avoid ### headers, and use only ASCII characters."

def answerPrompt (location skills budget goals question : String) : String :=
  "Answer the following question about side hustle ideas for someone in " ++ location ++
  " with skills in " ++ skills ++ ", a budget of " ++ budget ++
  " KES, and goals of " ++ goals ++ ": " ++ question ++
  ". Keep the answer under 150 words, use Markdown for readability, avoid ### headers, and use only ASCII characters."

def explorePrompt (heading location skills budget goals : String) : String :=
  "Provide a detailed breakdown for the side hustle idea \x27" ++ heading ++
  "\x27 for someone in " ++ location ++ " with skills in " ++ skills ++
  ", a budget of " ++ budget ++ " KES, and goals of " ++ goals ++
  ". Include steps to start, potential challenges, and how to use the budget, in under 150 words. Use Markdown for readability, avoid ### headers, and use only ASCII characters."

/-! The outbound message texts of bot.py (apostrophes written as the
escape so the texts match the source). -/

def welcomeMsg : String :=
  "Welcome to AnzaBiz AI! Let\x27s find you some awesome side hustle ideas in Kenya. 😊\n\nFirst, tell me: What skills do you have? (e.g., cooking, phone repair, graphic design)"

def cancelMsg : String := "Conversation cancelled."

def repromptMsg : String :=
  "Please enter the requested information (e.g., skills, location) or use /start to begin, /cancel to reset."

def onboardMsg : String :=
  "Hey there! I\x27m AnzaBiz AI, your side hustle guru in Kenya! 😎 Ready to find ideas that match your skills?"

def askLocationMsg : String := "Great! Where are you located? (e.g., Nairobi, Mombasa)"

def askBudgetMsg : String :=
  "What\x27s your budget in KES? (e.g., 5000, 10000, or any amount)"

def askGoalsMsg : String :=
  "What are your goals? (e.g., earn 20000/month, start a business)"

def apologyIdeasMsg : String :=
  "Sorry, I couldn\x27t generate ideas right now. Try again or use /cancel."

def chooseIdeaMsg : String := "Choose your best idea to explore further:"

def apologyEvalMsg : String :=
  "Sorry, I couldn\x27t evaluate your idea right now. Try again or use /cancel."

def whatNextMsg : String := "What would you like to do next?"

def apologyAnswerMsg : String :=
  "Sorry, I couldn\x27t answer right now. Try again or use /cancel."

def anythingElseMsg : String := "Anything else you\x27d like to do?"

/-- The guard message of handle_message; the source interpolates the
description of the caught exception, which the model leaves out. -/
def msgHandlerErrorMsg : String := "Error. Please try again or use /cancel."

def startingNewMsg : String := "Starting new conversation..."

def siteUrl : String := "https://www.linkedin.com/in/mwaura-wambiru"

def learnMoreMsg : String :=
  "Discover more at our website: " ++ siteUrl ++ " (explore our expert plans!)"

def alreadyExploredMsg : String :=
  "You\x27ve already explored this idea. Choose another or ask a question!"

def apologyExploreMsg : String :=
  "Sorry, I couldn\x27t explore this idea right now. Try again or use /cancel."

def customIdeaAskMsg : String :=
  "Awesome! What\x27s your own side hustle idea? (e.g., start a small shop, offer tutoring)"

def askQuestionAskMsg : String := "Sure! What question do you have about the ideas?"

def upsellText : String :=
  "To hit big goals like yours, our Expert Hustle Coach can help!"

def endConversationMsg (upsell : String) : String :=
  "Thanks for exploring with AnzaBiz AI! " ++ upsell ++
  "\nLoved these ideas? Take the next step to start earning faster!"

def premiumMsg : String :=
  "For a full strategy with Expert Hustle Coach guidance (KES 500), pay via M-Pesa to 0721494836. Send receipt to start."

def talkExpertMsg : String :=
  "Connect with our Expert Hustle Coach at " ++ siteUrl ++ " to unlock personalized guidance!"

def finalEndMsg : String :=
  "Thanks for using AnzaBiz AI! Start again anytime with /start. 😊"

def shareFriendsMsg : String :=
  "Share AnzaBiz AI with friends! Invite 3 friends to @AnzaBiz_bot and get a free KES 100 summary. Visit " ++ siteUrl ++ "/referrals for details."

def cbGenericErrorMsg : String := "Sorry, something went wrong. Try again."

/-! Sending Gemini output: clean, chunk to 4000, prefix later parts. -/

def cleanResponseS (s : String) : String := ⟨clean_response s.data⟩

def extractHeadingsS (s : String) : List String :=
  (extract_idea_headings s.data).map (fun l => (⟨l⟩ : String))

def splitMessageS (s : String) : List String :=
  (split_message s.data 4000).map (fun l => (⟨l⟩ : String))

/-- The enumerate loop around the chunked sends: the first part goes out
verbatim, later parts get the part-number header. -/
def partMsgs (parts : List String) : List String :=
  parts.mapIdx (fun i p => if i = 0 then p else "Part " ++ toString (i + 1) ++ ":\n" ++ p)

/-- The continuation keyboard built after an answered question or an
explored idea reads one heading per remaining idea; a missing
idea_headings key or a too-short list is a fault.  When no idea remains
the loop body never runs and the headings are not read. -/
def buildHeadingButtons (headings : Option (List String)) (remaining : List Int) :
    Option (List String) :=
  match remaining with
  | [] => some []
  | _ =>
    match headings with
    | none => none
    | some hs => remaining.mapM (fun i => pyIndex hs (i - 1))

/-- The fresh session the start handler creates: only the state key. -/
def freshSession : Session := { state := PState.skills }

/-! handle_message, state by state.  Mutations happen in source order, so
a fault later in a branch leaves the earlier assignments in place. -/

/-- The GOALS branch: store the goals, build the ideas prompt (reading the
three earlier attributes raises KeyError when one is missing), call
Gemini; on failure apologize and drop the session; on success store the
cleaned ideas and the extracted headings, send the chunked ideas and the
idea menu, then enter EXPLORE_IDEA with an empty explored list. -/
def goalsBranch (gen : Gen) (sess : Session) (text : String) : HOut :=
  let sess1 := { sess with goals := some text }
  match sess1.location, sess1.skills, sess1.budget with
  | some loc, some sk, some bu =>
    match gen (ideasPrompt loc sk bu text) with
    | none => ⟨none, [apologyIdeasMsg], false⟩
    | some t =>
      let cleaned := cleanResponseS t
      let sess2 := { sess1 with ideas := some cleaned,
                                ideaHeadings := some (extractHeadingsS cleaned) }
      let parts := partMsgs (splitMessageS ("Here are your side hustle ideas:\n" ++ cleaned))
      ⟨some { sess2 with state := PState.exploreIdea, exploredIdeas := some [] },
       parts ++ [chooseIdeaMsg], false⟩
  | _, _, _ => ⟨some sess1, [], true⟩

/-- The EXPLORE_IDEA branch of handle_message: free text is taken as the
user-authored custom idea, the evaluation prompt is built from it and the
four attributes; on failure apologize and drop the session; on success
send the evaluation and move to ASK_QUESTION. -/
def exploreTextBranch (gen : Gen) (sess : Session) (text : String) : HOut :=
  let sess1 := { sess with customIdea := some text }
  match sess1.location, sess1.skills, sess1.budget, sess1.goals with
  | some loc, some sk, some bu, some go =>
    match gen (evalPrompt loc sk bu go text) with
    | none => ⟨none, [apologyEvalMsg], false⟩
    | some t =>
      let parts := partMsgs (splitMessageS (cleanResponseS t))
      ⟨some { sess1 with state := PState.askQuestion }, parts ++ [whatNextMsg], false⟩
  | _, _, _, _ => ⟨some sess1, [], true⟩

/-- The ASK_QUESTION branch: store the question, build the answer prompt;
on failure apologize and drop the session; on success send the answer,
rebuild the menu (reading explored_ideas and one heading per remaining
idea, each read able to fault), and move to EXPLORE_CUSTOM only when no
idea remains. -/
def questionBranch (gen : Gen) (sess : Session) (text : String) : HOut :=
  let sess1 := { sess with question := some text }
  match sess1.location, sess1.skills, sess1.budget, sess1.goals with
  | some loc, some sk, some bu, some go =>
    match gen (answerPrompt loc sk bu go text) with
    | none => ⟨none, [apologyAnswerMsg], false⟩
    | some t =>
      let parts := partMsgs (splitMessageS (cleanResponseS t))
      match sess1.exploredIdeas with
      | none => ⟨some sess1, parts, true⟩
      | some explored =>
        let remaining := ([1, 2, 3] : List Int).filter (fun i => ¬ i ∈ explored)
        match buildHeadingButtons sess1.ideaHeadings remaining with
        | none => ⟨some sess1, parts, true⟩
        | some _ =>
          let sess2 := if remaining = [] then { sess1 with state := PState.customIdea } else sess1
          ⟨some sess2, parts ++ [anythingElseMsg], false⟩
  | _, _, _, _ => ⟨some sess1, [], true⟩

/-- The body of handle_message: slash texts get the re-prompt, an unknown
user gets the onboarding menu, otherwise the current state decides.  A
session in CUSTOM_IDEA matches no branch of the if/elif chain, so free
text there does nothing. -/
def innerMessage (gen : Gen) (store : Option Session) (text : String) : HOut :=
  if strStarts text "/" then
    if text ≠ "/start" ∧ text ≠ "/cancel" then ⟨store, [repromptMsg], false⟩
    else ⟨store, [], false⟩
  else
    match store with
    | none => ⟨none, [onboardMsg], false⟩
    | some sess =>
      match sess.state with
      | PState.skills =>
        ⟨some { sess with skills := some text, state := PState.location },
         [askLocationMsg], false⟩
      | PState.location =>
        ⟨some { sess with location := some text, state := PState.budget },
         [askBudgetMsg], false⟩
      | PState.budget =>
        ⟨some { sess with budget := some text, state := PState.goals },
         [askGoalsMsg], false⟩
      | PState.goals => goalsBranch gen sess text
      | PState.exploreIdea => exploreTextBranch gen sess text
      | PState.askQuestion => questionBranch gen sess text
      | PState.customIdea => ⟨some sess, [], false⟩

/-- handle_message with its top-level guard: an unexpected fault sends the
generic error text and removes the session. -/
def handle_message (gen : Gen) (store : Option Session) (text : String) : HOut :=
  let r := innerMessage gen store text
  if r.fault then ⟨none, r.msgs ++ [msgHandlerErrorMsg], false⟩ else r

/-- The explore_idea branch of callback_handler, after the idea number has
been parsed.  The membership test uses a defaulted read, the append then
writes the key; the heading lookup and the attribute reads of the prompt
can each fault, and by then the append has already happened.  A Gemini
failure apologizes and removes the session. -/
def exploreCallback (gen : Gen) (store : Option Session) (n : Int) : HOut :=
  match store with
  | none => ⟨none, [], true⟩
  | some sess =>
    if n ∈ sess.exploredIdeas.getD [] then ⟨some sess, [alreadyExploredMsg], false⟩
    else
      let sess1 := { sess with exploredIdeas := some (sess.exploredIdeas.getD [] ++ [n]) }
      match sess1.ideaHeadings with
      | none => ⟨some sess1, [], true⟩
      | some hs =>
        match pyIndex hs (n - 1) with
        | none => ⟨some sess1, [], true⟩
        | some heading =>
          match sess1.location, sess1.skills, sess1.budget, sess1.goals with
          | some loc, some sk, some bu, some go =>
            match gen (explorePrompt heading loc sk bu go) with
            | none => ⟨none, [apologyExploreMsg], false⟩
            | some t =>
              let parts := partMsgs (splitMessageS (cleanResponseS t))
              let remaining :=
                ([1, 2, 3] : List Int).filter (fun i => ¬ i ∈ sess1.exploredIdeas.getD [])
              match buildHeadingButtons sess1.ideaHeadings remaining with
              | none => ⟨some sess1, parts, true⟩
              | some _ =>
                let st := if remaining = [] then PState.customIdea else PState.askQuestion
                ⟨some { sess1 with state := st }, parts ++ [whatNextMsg], false⟩
          | _, _, _, _ => ⟨some sess1, [], true⟩

/-- The body of callback_handler.  The start_new branch runs the start
handler on the callback message, whose from_user is the bot account, so
the entry of the pressing user is untouched (only the bot-id entry is
reset); the model keeps the store and records the sent texts.  The
custom_idea and ask_question branches send first and only then touch the
session, so a missing session faults after the send. -/
def innerCallback (gen : Gen) (store : Option Session) (data : String) : HOut :=
  let goalsTop := ((store.bind Session.goals).getD "")
  if data = "start_new" then
    ⟨store, [startingNewMsg, welcomeMsg], false⟩
  else if data = "learn_more" then
    ⟨store, [learnMoreMsg], false⟩
  else if strStarts data "explore_idea_" then
    match pyInt (lastSeg data) with
    | none => ⟨store, [], true⟩
    | some n => exploreCallback gen store n
  else if data = "custom_idea" then
    match store with
    | none => ⟨none, [customIdeaAskMsg], true⟩
    | some sess => ⟨some { sess with state := PState.exploreIdea }, [customIdeaAskMsg], false⟩
  else if data = "ask_question" then
    match store with
    | none => ⟨none, [askQuestionAskMsg], true⟩
    | some sess => ⟨some { sess with state := PState.askQuestion }, [askQuestionAskMsg], false⟩
  else if data = "end_conversation" then
    let trigger := (["30000", "30,000", "50000", "50,000"] : List String).any
      (fun x => containsSub x.data (pyLower goalsTop).data)
    ⟨store, [endConversationMsg (if trigger then upsellText else "")], false⟩
  else if data = "premium_strategy" then
    ⟨store, [premiumMsg], false⟩
  else if data = "talk_expert" then
    ⟨store, [talkExpertMsg], false⟩
  else if data = "final_end" then
    ⟨none, [finalEndMsg], false⟩
  else if data = "share_friends" then
    ⟨store, [shareFriendsMsg], false⟩
  else
    ⟨store, [cbGenericErrorMsg], false⟩

/-- callback_handler with its top-level guard: an unexpected fault sends
the generic error text and performs no store operation at all. -/
def callback_handler (gen : Gen) (store : Option Session) (data : String) : HOut :=
  let r := innerCallback gen store data
  if r.fault then ⟨r.store, r.msgs ++ [cbGenericErrorMsg], false⟩ else r

/-! Inbound events and the per-event step. -/

inductive Event
  | start
  | cancel
  | msg (text : String)
  | cb (data : String)

/-- Dispatch one inbound event: the start command discards any session and
creates a fresh one, cancel removes it, free text goes to handle_message,
a button press to callback_handler. -/
def handleEvent (gen : Gen) (ev : Event) (store : Option Session) : HOut :=
  match ev with
  | Event.start => ⟨some freshSession, [welcomeMsg], false⟩
  | Event.cancel => ⟨none, [cancelMsg], false⟩
  | Event.msg t => handle_message gen store t
  | Event.cb d => callback_handler gen store d

/-! Predicates used by the claims. -/

/-- Does the delimiter-spacing pattern match at the head of the list: one
or two delimiters immediately followed by a non-space non-delimiter. -/
def bad2At : List Char → Bool
  | c1 :: c2 :: rest =>
    isDelim c1 &&
      (isBad c2 ||
        (isDelim c2 && (match rest with | c3 :: _ => isBad c3 | [] => false)))
  | _ => false

/-- No position of the list matches the delimiter-spacing pattern. -/
def noM2 : List Char → Bool
  | [] => true
  | c :: r => !bad2At (c :: r) && noM2 r

/-- The explored-ideas invariant of the specification on one session:
duplicate-free, a subset of the three idea numbers, non-empty only when
the headings key is populated. -/
def invSess (sess : Session) : Bool :=
  decide (sess.exploredIdeas.getD []).Nodup &&
  (sess.exploredIdeas.getD []).all (fun n => n == 1 || n == 2 || n == 3) &&
  ((sess.exploredIdeas.getD []).isEmpty || sess.ideaHeadings.isSome)

def InvStore : Option Session → Bool
  | none => true
  | some sess => invSess sess

/-- Well-formedness of one delivered event relative to the current store:
an explore selection must carry one of the three idea numbers the bot's
own menus generate (an unparseable number is allowed: it faults before any
mutation), and must only arrive while the session, if any, has its
headings populated.  All other events are unrestricted. -/
def eventOK : Event → Option Session → Bool
  | Event.cb d, store =>
    !(strStarts d "explore_idea_") ||
    ((match pyInt (lastSeg d) with
      | some n => n == 1 || n == 2 || n == 3
      | none => true) &&
     (match store with
      | none => true
      | some sess => sess.ideaHeadings.isSome))
  | _, _ => true

/-- Stores reachable through sequences of well-formed events, each step
with its own Gemini oracle. -/
inductive ReachOK : Option Session → Option Session → Prop
  | refl (s : Option Session) : ReachOK s s
  | step {s t : Option Session} (gen : Gen) (ev : Event) :
      ReachOK s t → eventOK ev t = true → ReachOK s (handleEvent gen ev t).store

/-- A fully collected post-generation session used as concrete input in
witnesses and counterexamples. -/
def sampleSession : Session :=
  { state := PState.exploreIdea,
    skills := some "cooking",
    location := some "Nairobi",
    budget := some "5000",
    goals := some "earn 20000/month",
    ideas := some "x",
    ideaHeadings := some ["A", "B", "C"],
    exploredIdeas := some [],
    customIdea := none,
    question := none }

/-- The Gemini oracle that always fails (raises or returns empty text). -/
def genFail : Gen := fun _ => none

/-- A Gemini oracle that always answers with a fixed short text. -/
def genOk : Gen := fun _ => some "**Idea 1: T**\nbody"

/-! ### Theorems.  First the delivery retrier. -/

theorem range_pow_shift (delay attempt n : Nat) :
    (List.range (n + 1)).map (fun i => delay * 2 ^ (attempt + i)) =
      delay * 2 ^ attempt :: (List.range n).map (fun i => delay * 2 ^ (attempt + 1 + i)) := by
  rw [List.range_succ_eq_map]
  simp only [List.map_cons, List.map_map, Nat.add_zero, List.cons.injEq, true_and]
  apply List.map_congr_left
  intro i _
  simp only [Function.comp_apply]
  rw [show attempt + (i + 1) = attempt + 1 + i by omega]

/-- One unfolding of the retry loop in the caught, non-final case. -/
theorem retryAux_step {A : Type} (action : Nat → Outcome A)
    (retries delay attempt rem : Nat) (k : ExcKind)
    (ha : action attempt = Outcome.exc k) (hc : isCaught k = true)
    (hlt : attempt < retries - 1) :
    retryAux action retries delay attempt (rem + 1) =
      ⟨(retryAux action retries delay (attempt + 1) rem).calls + 1,
       delay * 2 ^ attempt :: (retryAux action retries delay (attempt + 1) rem).sleeps,
       (retryAux action retries delay (attempt + 1) rem).warnLogs + 1,
       (retryAux action retries delay (attempt + 1) rem).errLogs,
       (retryAux action retries delay (attempt + 1) rem).result⟩ := by
  simp [retryAux, ha, hc, hlt]

/-- Behaviour of the retry loop under an action that fails with a caught
exception class on every attempt: all remaining iterations run, each one
logs a warning, each but the last sleeps the doubled delay, the last also
logs an error and re-raises. -/
theorem retryAux_allFail {A : Type} (action : Nat → Outcome A) (k : ExcKind)
    (hk : isCaught k = true) (hact : ∀ i, action i = Outcome.exc k)
    (retries delay : Nat) :
    ∀ rem attempt, attempt + rem = retries → 1 ≤ rem →
      retryAux action retries delay attempt rem =
        ⟨rem, (List.range (rem - 1)).map (fun i => delay * 2 ^ (attempt + i)),
         rem, 1, RetRes.raised k⟩ := by
  intro rem
  induction rem with
  | zero => intro attempt _ h; omega
  | succ rem ih =>
    intro attempt htot _
    cases rem with
    | zero =>
      have hnl : ¬ attempt < retries - 1 := by omega
      simp [retryAux, hact, hk, hnl]
    | succ rem' =>
      have hlt : attempt < retries - 1 := by omega
      have hrec := ih (attempt + 1) (by omega) (by omega)
      rw [retryAux_step action retries delay attempt (rem' + 1) k (hact attempt) hk hlt, hrec]
      simp only [Nat.succ_sub_one]
      rw [range_pow_shift]

/-- Behaviour of the retry loop under an action that fails with an
uncaught exception class: the first attempt propagates at once, nothing is
logged, nothing sleeps. -/
theorem retryAux_uncaught {A : Type} (action : Nat → Outcome A) (k : ExcKind)
    (hk : isCaught k = false) (hact : ∀ i, action i = Outcome.exc k)
    (retries delay : Nat) :
    ∀ rem attempt, 1 ≤ rem →
      retryAux action retries delay attempt rem = ⟨1, [], 0, 0, RetRes.raised k⟩ := by
  intro rem attempt h1
  cases rem with
  | zero => omega
  | succ rem => simp [retryAux, hact, hk]

/-- C5: an always-transiently-failing action is invoked exactly retries
times, the sleeps between consecutive attempts are delay times two to the
k for k from zero to retries minus two, and the final failure propagates
to the caller. -/
theorem retrier_transient_bound {A : Type} (action : Nat → Outcome A)
    (retries delay : Nat)
    (hact : ∀ i, action i = Outcome.exc ExcKind.reqExc)
    (hr : 1 ≤ retries) :
    (retry_send_message action retries delay).calls = retries ∧
    (retry_send_message action retries delay).sleeps =
      (List.range (retries - 1)).map (fun k => delay * 2 ^ k) ∧
    (retry_send_message action retries delay).sleeps.sum =
      ((List.range (retries - 1)).map (fun k => delay * 2 ^ k)).sum ∧
    (retry_send_message action retries delay).result = RetRes.raised ExcKind.reqExc := by
  have h := retryAux_allFail action ExcKind.reqExc rfl hact retries delay retries 0
    (by omega) hr
  unfold retry_send_message
  rw [h]
  refine ⟨rfl, ?_, ?_, rfl⟩ <;> simp

/-- C5 witness: three retries with base delay ten call the action three
times, sleep ten then twenty, and re-raise the transport failure. -/
theorem retrier_transient_bound_witness :
    (retry_send_message (A := Unit) (fun _ => Outcome.exc ExcKind.reqExc) 3 10).calls = 3 ∧
    (retry_send_message (A := Unit) (fun _ => Outcome.exc ExcKind.reqExc) 3 10).sleeps = [10, 20] ∧
    (retry_send_message (A := Unit) (fun _ => Outcome.exc ExcKind.reqExc) 3 10).result =
      RetRes.raised ExcKind.reqExc := by
  have h := retrier_transient_bound (A := Unit) (fun _ => Outcome.exc ExcKind.reqExc)
    3 10 (fun _ => rfl) (by omega)
  exact ⟨h.1, by rw [h.2.1]; decide, h.2.2.2⟩

/-- C4 counterexample: an exception class outside the transient transport
class (and outside the whole except clause) propagates on the very first
attempt, with no retry and no log line, contradicting the claim that every
non-transient failure exhausts the retries and is logged first. -/
theorem retrier_nontransient_cex :
    ExcKind.otherExc ≠ ExcKind.reqExc ∧
    (retry_send_message (A := Unit) (fun _ => Outcome.exc ExcKind.otherExc) 3 10).calls = 1 ∧
    (retry_send_message (A := Unit) (fun _ => Outcome.exc ExcKind.otherExc) 3 10).warnLogs = 0 ∧
    (retry_send_message (A := Unit) (fun _ => Outcome.exc ExcKind.otherExc) 3 10).errLogs = 0 ∧
    (retry_send_message (A := Unit) (fun _ => Outcome.exc ExcKind.otherExc) 3 10).result =
      RetRes.raised ExcKind.otherExc ∧
    ¬ (retry_send_message (A := Unit) (fun _ => Outcome.exc ExcKind.otherExc) 3 10).calls = 3 := by
  decide

/-- C4 amended: of the exception classes outside the transient transport
class, the chat API error class (the second member of the except clause,
covering malformed-request errors) does exhaust all retries and is logged
once per attempt plus a final error line before propagating; any exception
class outside the except clause propagates on the first attempt without
retries and without logging. -/
theorem retrier_nontransient_amended (retries delay : Nat) (hr : 1 ≤ retries) :
    (∀ (A : Type) (action : Nat → Outcome A),
      (∀ i, action i = Outcome.exc ExcKind.apiExc) →
      (retry_send_message action retries delay).calls = retries ∧
      (retry_send_message action retries delay).warnLogs = retries ∧
      (retry_send_message action retries delay).errLogs = 1 ∧
      (retry_send_message action retries delay).result = RetRes.raised ExcKind.apiExc) ∧
    (∀ (A : Type) (action : Nat → Outcome A),
      (∀ i, action i = Outcome.exc ExcKind.otherExc) →
      (retry_send_message action retries delay).calls = 1 ∧
      (retry_send_message action retries delay).warnLogs = 0 ∧
      (retry_send_message action retries delay).errLogs = 0 ∧
      (retry_send_message action retries delay).result = RetRes.raised ExcKind.otherExc) := by
  constructor
  · intro A action hact
    have h := retryAux_allFail action ExcKind.apiExc rfl hact retries delay retries 0
      (by omega) hr
    unfold retry_send_message
    rw [h]
    exact ⟨rfl, rfl, rfl, rfl⟩
  · intro A action hact
    have h := retryAux_uncaught action ExcKind.otherExc rfl hact retries delay retries 0 hr
    unfold retry_send_message
    rw [h]
    exact ⟨rfl, rfl, rfl, rfl⟩

/-- C4 amended witness at three retries and delay ten. -/
theorem retrier_nontransient_amended_witness :
    (retry_send_message (A := Unit) (fun _ => Outcome.exc ExcKind.apiExc) 3 10).calls = 3 ∧
    (retry_send_message (A := Unit) (fun _ => Outcome.exc ExcKind.otherExc) 3 10).calls = 1 := by
  have h := retrier_nontransient_amended 3 10 (by omega)
  exact ⟨(h.1 Unit (fun _ => Outcome.exc ExcKind.apiExc) (fun _ => rfl)).1,
         (h.2 Unit (fun _ => Outcome.exc ExcKind.otherExc) (fun _ => rfl)).1⟩

/-! ### The conversation state machine claims. -/

/-- C7: selecting an already-explored idea number is a no-op: the callback
handler answers with the already-explored notice, takes no further action,
and the session record is returned unchanged in every field. -/
theorem idea_selection_idempotent (gen : Gen) (sess : Session) (data : String) (n : Int)
    (hstart : strStarts data "explore_idea_" = true)
    (hparse : pyInt (lastSeg data) = some n)
    (hmem : n ∈ sess.exploredIdeas.getD []) :
    callback_handler gen (some sess) data = ⟨some sess, [alreadyExploredMsg], false⟩ := by
  have h1 : data ≠ "start_new" := by rintro rfl; exact absurd hstart (by decide)
  have h2 : data ≠ "learn_more" := by rintro rfl; exact absurd hstart (by decide)
  unfold callback_handler innerCallback exploreCallback
  simp [h1, h2, hstart, hparse, hmem]

/-- C7 witness at a concrete session that has already explored idea one. -/
theorem idea_selection_idempotent_witness :
    (1 : Int) ∈ (({ sampleSession with exploredIdeas := some [1] } : Session).exploredIdeas.getD []) ∧
    callback_handler genFail (some { sampleSession with exploredIdeas := some [1] })
        "explore_idea_1" =
      ⟨some { sampleSession with exploredIdeas := some [1] }, [alreadyExploredMsg], false⟩ :=
  ⟨by decide,
   idea_selection_idempotent genFail { sampleSession with exploredIdeas := some [1] }
     "explore_idea_1" 1 (by decide) (by decide) (by decide)⟩

/-- C10: a successful primary generation stores the sanitized ideas and
the extracted headings and puts the session into EXPLORE_IDEA with an
empty explored list; in that state free text is stored as the
user-authored custom idea, the feasibility prompt is synthesized from it
together with the four collected attributes, and on success the state
becomes ASK_QUESTION. -/
theorem post_generation_flow (gen : Gen) (sess : Session)
    (loc sk bu go text reply : String)
    (hslash : strStarts text "/" = false) :
    (sess.state = PState.goals → sess.location = some loc → sess.skills = some sk →
     sess.budget = some bu → gen (ideasPrompt loc sk bu text) = some reply →
     handle_message gen (some sess) text =
       ⟨some { sess with
               goals := some text,
               ideas := some (cleanResponseS reply),
               ideaHeadings := some (extractHeadingsS (cleanResponseS reply)),
               state := PState.exploreIdea, exploredIdeas := some [] },
        partMsgs (splitMessageS ("Here are your side hustle ideas:\n" ++ cleanResponseS reply))
          ++ [chooseIdeaMsg], false⟩) ∧
    (sess.state = PState.exploreIdea → sess.location = some loc → sess.skills = some sk →
     sess.budget = some bu → sess.goals = some go →
     gen (evalPrompt loc sk bu go text) = some reply →
     handle_message gen (some sess) text =
       ⟨some { sess with customIdea := some text, state := PState.askQuestion },
        partMsgs (splitMessageS (cleanResponseS reply)) ++ [whatNextMsg], false⟩) := by
  constructor
  · intro hst hloc hsk hbu hgen
    unfold handle_message innerMessage goalsBranch
    simp [hslash, hst, hloc, hsk, hbu, hgen]
  · intro hst hloc hsk hbu hgo hgen
    unfold handle_message innerMessage exploreTextBranch
    simp [hslash, hst, hloc, hsk, hbu, hgo, hgen]

/-- C10 witness on the sample session with a fixed oracle reply. -/
theorem post_generation_flow_witness :
    strStarts "sell mandazi" "/" = false ∧
    handle_message (fun p => if p = evalPrompt "Nairobi" "cooking" "5000" "earn 20000/month"
        "sell mandazi" then some "fine idea" else none)
      (some sampleSession) "sell mandazi" =
      ⟨some { sampleSession with
              customIdea := some "sell mandazi",
              state := PState.askQuestion },
       partMsgs (splitMessageS (cleanResponseS "fine idea")) ++ [whatNextMsg], false⟩ :=
  ⟨by decide,
   (post_generation_flow
      (fun p => if p = evalPrompt "Nairobi" "cooking" "5000" "earn 20000/month" "sell mandazi"
        then some "fine idea" else none)
      sampleSession "Nairobi" "cooking" "5000" "earn 20000/month" "sell mandazi" "fine idea"
      (by decide)).2 rfl rfl rfl rfl rfl (by simp)⟩

/-- C1 counterexample: with a complete post-generation session and a
failing Gemini call, both the explore_idea selection and the ASK_QUESTION
free-text path deliver the apology and remove the session from the store,
so the session is not preserved as the claim states. -/
theorem exploration_failure_cex :
    callback_handler genFail (some sampleSession) "explore_idea_1" =
      ⟨none, [apologyExploreMsg], false⟩ ∧
    handle_message genFail (some { sampleSession with state := PState.askQuestion }) "why" =
      ⟨none, [apologyAnswerMsg], false⟩ ∧
    ¬ (callback_handler genFail (some sampleSession) "explore_idea_1").store =
        some sampleSession := by
  refine ⟨by decide, by decide, by decide⟩

/-- C1 amended: on a Generative Service failure during a not-yet-explored
idea selection or during ASK_QUESTION free-text processing, the user
receives the apology text but the session record is removed from the
store, exactly like the primary-generation failure; the state is not
preserved. -/
theorem exploration_failure_removes_session (gen : Gen) (sess : Session)
    (data text : String) (n : Int) (hs : List String) (heading loc sk bu go : String)
    (hloc : sess.location = some loc) (hsk : sess.skills = some sk)
    (hbu : sess.budget = some bu) (hgo : sess.goals = some go) :
    (strStarts data "explore_idea_" = true →
     pyInt (lastSeg data) = some n →
     ¬ n ∈ sess.exploredIdeas.getD [] →
     sess.ideaHeadings = some hs →
     pyIndex hs (n - 1) = some heading →
     gen (explorePrompt heading loc sk bu go) = none →
     callback_handler gen (some sess) data = ⟨none, [apologyExploreMsg], false⟩) ∧
    (sess.state = PState.askQuestion →
     strStarts text "/" = false →
     gen (answerPrompt loc sk bu go text) = none →
     handle_message gen (some sess) text = ⟨none, [apologyAnswerMsg], false⟩) := by
  constructor
  · intro hstart hparse hmem hheads hidx hgen
    have h1 : data ≠ "start_new" := by rintro rfl; exact absurd hstart (by decide)
    have h2 : data ≠ "learn_more" := by rintro rfl; exact absurd hstart (by decide)
    unfold callback_handler innerCallback exploreCallback
    simp [h1, h2, hstart, hparse, hmem, hheads, hidx, hloc, hsk, hbu, hgo, hgen]
  · intro hst hslash hgen
    unfold handle_message innerMessage questionBranch
    simp [hslash, hst, hloc, hsk, hbu, hgo, hgen]

/-- C1 amended witness on the sample session. -/
theorem exploration_failure_removes_session_witness :
    strStarts "explore_idea_1" "explore_idea_" = true ∧
    callback_handler genFail (some sampleSession) "explore_idea_1" =
      ⟨none, [apologyExploreMsg], false⟩ :=
  ⟨by decide,
   (exploration_failure_removes_session genFail sampleSession "explore_idea_1" "why" 1
      ["A", "B", "C"] "A" "Nairobi" "cooking" "5000" "earn 20000/month"
      rfl rfl rfl rfl).1 (by decide) (by decide) (by decide) rfl (by decide) rfl⟩

/-- Every faulting path of the explore branch keeps the session present:
faults happen on reads (headings, attributes), never after the removal
that only the handled Gemini-failure branch performs. -/
theorem exploreCallback_fault_keeps (gen : Gen) (sess : Session) (n : Int) :
    (exploreCallback gen (some sess) n).fault = true →
    (exploreCallback gen (some sess) n).store.isSome = true := by
  unfold exploreCallback
  by_cases hm : n ∈ sess.exploredIdeas.getD []
  · simp [hm]
  · rcases hh : sess.ideaHeadings with _ | hs
    · simp [hm, hh]
    · rcases hidx : pyIndex hs (n - 1) with _ | heading
      · simp [hm, hh, hidx]
      · rcases hloc : sess.location with _ | loc
        · simp [hm, hh, hidx, hloc]
        · rcases hsk : sess.skills with _ | sk
          · simp [hm, hh, hidx, hloc, hsk]
          · rcases hbu : sess.budget with _ | bu
            · simp [hm, hh, hidx, hloc, hsk, hbu]
            · rcases hgo : sess.goals with _ | go
              · simp [hm, hh, hidx, hloc, hsk, hbu, hgo]
              · rcases hg : gen (explorePrompt heading loc sk bu go) with _ | t
                · simp [hm, hh, hidx, hloc, hsk, hbu, hgo, hg]
                · rcases hb : buildHeadingButtons (some hs)
                      (List.filter (fun i => !decide (i ∈ sess.exploredIdeas.getD []) &&
                        !decide (i = n)) ([1, 2, 3] : List Int)) with _ | btns <;>
                    simp [hm, hh, hidx, hloc, hsk, hbu, hgo, hg, hb]

/-- Every faulting path of the callback body keeps the session present
when one was present. -/
theorem innerCallback_fault_keeps (gen : Gen) (sess : Session) (data : String) :
    (innerCallback gen (some sess) data).fault = true →
    (innerCallback gen (some sess) data).store.isSome = true := by
  unfold innerCallback
  by_cases h1 : data = "start_new"
  · subst h1; simp
  by_cases h2 : data = "learn_more"
  · subst h2; simp
  by_cases h3 : strStarts data "explore_idea_" = true
  · rcases hp : pyInt (lastSeg data) with _ | n
    · simp [h1, h2, h3, hp]
    · simp only [h1, h2, h3, hp, if_false, if_true]
      exact exploreCallback_fault_keeps gen sess n
  by_cases h4 : data = "custom_idea"
  · subst h4; simp [h3]
  by_cases h5 : data = "ask_question"
  · subst h5; simp [h3]
  by_cases h6 : data = "end_conversation"
  · subst h6; simp [h3]
  by_cases h7 : data = "premium_strategy"
  · subst h7; simp [h3]
  by_cases h8 : data = "talk_expert"
  · subst h8; simp [h3]
  by_cases h9 : data = "final_end"
  · subst h9; simp [h3]
  by_cases h10 : data = "share_friends"
  · subst h10; simp [h3]
  · simp [h1, h2, h3, h4, h5, h6, h7, h8, h9, h10]

/-- C9: the asymmetry of the top-level guards.  When the callback body
faults, the guard sends the generic error and performs no store operation,
so the session is exactly the body's store and in particular still
present; when the free-text body faults, the guard sends the error text
and removes the session. -/
theorem guard_asymmetry (gen : Gen) (sess : Session) (store : Option Session)
    (data text : String) :
    ((innerCallback gen (some sess) data).fault = true →
      (callback_handler gen (some sess) data).store =
        (innerCallback gen (some sess) data).store ∧
      (callback_handler gen (some sess) data).store.isSome = true ∧
      (callback_handler gen (some sess) data).msgs =
        (innerCallback gen (some sess) data).msgs ++ [cbGenericErrorMsg]) ∧
    ((innerMessage gen store text).fault = true →
      (handle_message gen store text).store = none ∧
      (handle_message gen store text).msgs =
        (innerMessage gen store text).msgs ++ [msgHandlerErrorMsg]) := by
  constructor
  · intro h
    have hk := innerCallback_fault_keeps gen sess data h
    unfold callback_handler
    simp [h, hk]
  · intro h
    unfold handle_message
    simp [h]

/-- C9 witness: an unparseable idea number faults the callback body and
the session survives; a missing attribute faults the free-text body in
GOALS and the session is removed. -/
theorem guard_asymmetry_witness :
    (innerCallback genFail (some sampleSession) "explore_idea_x").fault = true ∧
    (callback_handler genFail (some sampleSession) "explore_idea_x").store.isSome = true ∧
    (innerMessage genFail (some { freshSession with state := PState.goals }) "goal").fault = true ∧
    (handle_message genFail (some { freshSession with state := PState.goals }) "goal").store =
      none := by
  have h := guard_asymmetry genFail sampleSession
    (some { freshSession with state := PState.goals }) "explore_idea_x" "goal"
  exact ⟨by decide, (h.1 (by decide)).2.1, by decide, (h.2 (by decide)).1⟩

/-! Preservation of the explored-ideas invariant (for C8). -/

/-- Propositional reading of the session invariant. -/
theorem invSess_iff (sess : Session) :
    invSess sess = true ↔
      (sess.exploredIdeas.getD []).Nodup ∧
      (∀ n ∈ sess.exploredIdeas.getD [], n = 1 ∨ n = 2 ∨ n = 3) ∧
      (sess.exploredIdeas.getD [] = [] ∨ sess.ideaHeadings.isSome = true) := by
  simp only [invSess, Bool.and_eq_true, Bool.or_eq_true, decide_eq_true_eq,
    List.all_eq_true, List.isEmpty_iff, beq_iff_eq]
  constructor
  · rintro ⟨⟨h1, h2⟩, h3⟩
    refine ⟨h1, fun n hn => ?_, h3⟩
    have := h2 n hn
    tauto
  · rintro ⟨h1, h2, h3⟩
    refine ⟨⟨h1, fun n hn => ?_⟩, h3⟩
    have := h2 n hn
    tauto

/-- The invariant only depends on the explored list and the headings. -/
theorem invSess_congr (s1 s2 : Session)
    (he : s1.exploredIdeas = s2.exploredIdeas)
    (hh : s1.ideaHeadings = s2.ideaHeadings) :
    invSess s1 = invSess s2 := by
  simp [invSess, he, hh]

theorem invStore_goalsBranch (gen : Gen) (sess : Session) (text : String)
    (hInv : invSess sess = true) :
    InvStore (goalsBranch gen sess text).store = true := by
  unfold goalsBranch
  rcases hloc : sess.location with _ | loc
  · simpa [hloc, InvStore, invSess] using hInv
  rcases hsk : sess.skills with _ | sk
  · simpa [hloc, hsk, InvStore, invSess] using hInv
  rcases hbu : sess.budget with _ | bu
  · simpa [hloc, hsk, hbu, InvStore, invSess] using hInv
  rcases hg : gen (ideasPrompt loc sk bu text) with _ | t
  · simp [hloc, hsk, hbu, hg, InvStore]
  · simp [hloc, hsk, hbu, hg, InvStore, invSess]

theorem invStore_exploreTextBranch (gen : Gen) (sess : Session) (text : String)
    (hInv : invSess sess = true) :
    InvStore (exploreTextBranch gen sess text).store = true := by
  unfold exploreTextBranch
  rcases hloc : sess.location with _ | loc
  · simpa [hloc, InvStore, invSess] using hInv
  rcases hsk : sess.skills with _ | sk
  · simpa [hloc, hsk, InvStore, invSess] using hInv
  rcases hbu : sess.budget with _ | bu
  · simpa [hloc, hsk, hbu, InvStore, invSess] using hInv
  rcases hgo : sess.goals with _ | go
  · simpa [hloc, hsk, hbu, hgo, InvStore, invSess] using hInv
  rcases hg : gen (evalPrompt loc sk bu go text) with _ | t
  · simp [hloc, hsk, hbu, hgo, hg, InvStore]
  · simpa [hloc, hsk, hbu, hgo, hg, InvStore, invSess] using hInv

theorem invStore_questionBranch (gen : Gen) (sess : Session) (text : String)
    (hInv : invSess sess = true) :
    InvStore (questionBranch gen sess text).store = true := by
  unfold questionBranch
  rcases hloc : sess.location with _ | loc
  · simpa [hloc, InvStore, invSess] using hInv
  rcases hsk : sess.skills with _ | sk
  · simpa [hloc, hsk, InvStore, invSess] using hInv
  rcases hbu : sess.budget with _ | bu
  · simpa [hloc, hsk, hbu, InvStore, invSess] using hInv
  rcases hgo : sess.goals with _ | go
  · simpa [hloc, hsk, hbu, hgo, InvStore, invSess] using hInv
  rcases hg : gen (answerPrompt loc sk bu go text) with _ | t
  · simp [hloc, hsk, hbu, hgo, hg, InvStore]
  rcases hex : sess.exploredIdeas with _ | explored
  · simpa [hloc, hsk, hbu, hgo, hg, hex, InvStore, invSess] using hInv
  rcases hremc : List.filter (fun i => !decide (i ∈ explored)) ([1, 2, 3] : List Int)
      with _ | ⟨r0, rrest⟩
  · simpa [hloc, hsk, hbu, hgo, hg, hex, hremc, buildHeadingButtons, InvStore, invSess]
      using hInv
  rcases hhs : sess.ideaHeadings with _ | hs
  · simpa [hloc, hsk, hbu, hgo, hg, hex, hremc, hhs, buildHeadingButtons, InvStore, invSess]
      using hInv
  rcases hmm : List.mapM.loop (fun i => pyIndex hs (i - 1)) (r0 :: rrest) [] with _ | btns
  · simpa [hloc, hsk, hbu, hgo, hg, hex, hremc, hhs, hmm, buildHeadingButtons, InvStore,
      invSess] using hInv
  · simpa [hloc, hsk, hbu, hgo, hg, hex, hremc, hhs, hmm, buildHeadingButtons, InvStore,
      invSess] using hInv

theorem invStore_handle_message (gen : Gen) (st : Option Session) (text : String)
    (hInv : InvStore st = true) :
    InvStore (handle_message gen st text).store = true := by
  unfold handle_message
  by_cases hf : (innerMessage gen st text).fault = true
  · simp [hf, InvStore]
  have hf2 : (innerMessage gen st text).fault = false := by
    simpa using hf
  simp only [hf2, Bool.false_eq_true, if_false]
  unfold innerMessage
  by_cases hsl : strStarts text "/" = true
  · by_cases hc : text ≠ "/start" ∧ text ≠ "/cancel"
    · simpa [hsl, hc] using hInv
    · simpa [hsl, hc] using hInv
  · cases st with
    | none => simp [hsl, InvStore]
    | some sess =>
      have hInvS : invSess sess = true := by simpa [InvStore] using hInv
      cases hstate : sess.state with
      | skills => simpa [hsl, hstate, InvStore, invSess] using hInvS
      | location => simpa [hsl, hstate, InvStore, invSess] using hInvS
      | budget => simpa [hsl, hstate, InvStore, invSess] using hInvS
      | goals =>
        simp only [hsl, hstate, Bool.false_eq_true, if_false]
        exact invStore_goalsBranch gen sess text hInvS
      | exploreIdea =>
        simp only [hsl, hstate, Bool.false_eq_true, if_false]
        exact invStore_exploreTextBranch gen sess text hInvS
      | askQuestion =>
        simp only [hsl, hstate, Bool.false_eq_true, if_false]
        exact invStore_questionBranch gen sess text hInvS
      | customIdea => simpa [hsl, hstate, InvStore, invSess] using hInvS

/-- Appending a new in-range idea number preserves the session
invariant. -/
theorem invSess_append (sess : Session) (n : Int)
    (hInv : invSess sess = true)
    (hmem : ¬ n ∈ sess.exploredIdeas.getD [])
    (hn : n = 1 ∨ n = 2 ∨ n = 3)
    (hhead : sess.ideaHeadings.isSome = true) :
    invSess { sess with exploredIdeas := some (sess.exploredIdeas.getD [] ++ [n]) } = true := by
  rcases (invSess_iff sess).mp hInv with ⟨hnd, hall, _⟩
  refine (invSess_iff _).mpr ?_
  refine ⟨?_, ?_, Or.inr hhead⟩
  · simpa [List.nodup_append] using ⟨hnd, hmem⟩
  · intro m hm
    rcases List.mem_append.mp hm with h | h
    · exact hall m h
    · rcases List.mem_singleton.mp h with rfl
      exact hn

theorem invStore_exploreCallback (gen : Gen) (st : Option Session) (n : Int)
    (hInv : InvStore st = true)
    (hn : n = 1 ∨ n = 2 ∨ n = 3)
    (hhead : ∀ sess, st = some sess → sess.ideaHeadings.isSome = true) :
    InvStore (exploreCallback gen st n).store = true := by
  unfold exploreCallback
  cases st with
  | none => simp [InvStore]
  | some sess =>
    have hInvS : invSess sess = true := by simpa [InvStore] using hInv
    have hh := hhead sess rfl
    by_cases hm : n ∈ sess.exploredIdeas.getD []
    · simpa [hm, InvStore] using hInvS
    · have key := invSess_append sess n hInvS hm hn hh
      rcases hhs : sess.ideaHeadings with _ | hs
      · simp [hhs] at hh
      rcases hidx : pyIndex hs (n - 1) with _ | heading
      · refine Eq.trans ?_ key
        simp [hm, hhs, hidx, InvStore]
        all_goals exact invSess_congr _ _ rfl (by simp [hhs])
      rcases hloc : sess.location with _ | loc
      · refine Eq.trans ?_ key
        simp [hm, hhs, hidx, hloc, InvStore]
        all_goals exact invSess_congr _ _ rfl (by simp [hhs])
      rcases hsk : sess.skills with _ | sk
      · refine Eq.trans ?_ key
        simp [hm, hhs, hidx, hloc, hsk, InvStore]
        all_goals exact invSess_congr _ _ rfl (by simp [hhs])
      rcases hbu : sess.budget with _ | bu
      · refine Eq.trans ?_ key
        simp [hm, hhs, hidx, hloc, hsk, hbu, InvStore]
        all_goals exact invSess_congr _ _ rfl (by simp [hhs])
      rcases hgo : sess.goals with _ | go
      · refine Eq.trans ?_ key
        simp [hm, hhs, hidx, hloc, hsk, hbu, hgo, InvStore]
        all_goals exact invSess_congr _ _ rfl (by simp [hhs])
      rcases hg : gen (explorePrompt heading loc sk bu go) with _ | t
      · simp [hm, hhs, hidx, hloc, hsk, hbu, hgo, hg, InvStore]
      rcases hremc : List.filter (fun i => !decide (i ∈ sess.exploredIdeas.getD []) &&
          !decide (i = n)) ([1, 2, 3] : List Int) with _ | ⟨r0, rrest⟩
      · refine Eq.trans ?_ key
        simp [hm, hhs, hidx, hloc, hsk, hbu, hgo, hg, hremc, buildHeadingButtons, InvStore]
        all_goals exact invSess_congr _ _ rfl (by simp [hhs])
      rcases hmm : List.mapM.loop (fun i => pyIndex hs (i - 1)) (r0 :: rrest) [] with _ | btns
      · refine Eq.trans ?_ key
        simp [hm, hhs, hidx, hloc, hsk, hbu, hgo, hg, hremc, hmm, buildHeadingButtons,
          InvStore]
        all_goals exact invSess_congr _ _ rfl (by simp [hhs])
      · refine Eq.trans ?_ key
        simp [hm, hhs, hidx, hloc, hsk, hbu, hgo, hg, hremc, hmm, buildHeadingButtons,
          InvStore]
        all_goals exact invSess_congr _ _ rfl (by simp [hhs])

theorem invStore_callback (gen : Gen) (st : Option Session) (data : String)
    (hInv : InvStore st = true)
    (hok : eventOK (Event.cb data) st = true) :
    InvStore (callback_handler gen st data).store = true := by
  have hbody : InvStore (innerCallback gen st data).store = true := by
    unfold innerCallback
    by_cases h1 : data = "start_new"
    · subst h1; simpa using hInv
    by_cases h2 : data = "learn_more"
    · subst h2; simpa using hInv
    by_cases h3 : strStarts data "explore_idea_" = true
    · rcases hp : pyInt (lastSeg data) with _ | n
      · simpa [h1, h2, h3, hp] using hInv
      · have hok2 : (n = 1 ∨ n = 2 ∨ n = 3) ∧
            (∀ sess, st = some sess → sess.ideaHeadings.isSome = true) := by
          simp only [eventOK, h3, Bool.not_true, Bool.false_or, hp, Bool.and_eq_true] at hok
          refine ⟨?_, ?_⟩
          · rcases hok with ⟨ha, _⟩
            have ha2 : (n = 1 ∨ n = 2) ∨ n = 3 := by
              simpa [Bool.or_eq_true, beq_iff_eq] using ha
            tauto
          · rcases hok with ⟨_, hb⟩
            intro sess hsess
            rw [hsess] at hb
            simpa using hb
        simp only [h1, h2, h3, hp, if_false, if_true]
        exact invStore_exploreCallback gen st n hInv hok2.1 hok2.2
    by_cases h4 : data = "custom_idea"
    · subst h4
      cases st with
      | none => simp [h3, InvStore]
      | some sess =>
        simpa [h3, InvStore, invSess] using (by simpa [InvStore] using hInv : invSess sess = true)
    by_cases h5 : data = "ask_question"
    · subst h5
      cases st with
      | none => simp [h3, InvStore]
      | some sess =>
        simpa [h3, InvStore, invSess] using (by simpa [InvStore] using hInv : invSess sess = true)
    by_cases h6 : data = "end_conversation"
    · subst h6; simpa [h3] using hInv
    by_cases h7 : data = "premium_strategy"
    · subst h7; simpa [h3] using hInv
    by_cases h8 : data = "talk_expert"
    · subst h8; simpa [h3] using hInv
    by_cases h9 : data = "final_end"
    · subst h9; simp [h3, InvStore]
    by_cases h10 : data = "share_friends"
    · subst h10; simpa [h3] using hInv
    · simpa [h1, h2, h3, h4, h5, h6, h7, h8, h9, h10] using hInv
  unfold callback_handler
  by_cases hf : (innerCallback gen st data).fault = true
  · simpa [hf] using hbody
  · simpa [hf] using hbody

theorem invStore_step (gen : Gen) (ev : Event) (st : Option Session)
    (hInv : InvStore st = true) (hok : eventOK ev st = true) :
    InvStore (handleEvent gen ev st).store = true := by
  cases ev with
  | start => simp [handleEvent, InvStore, freshSession, invSess]
  | cancel => simp [handleEvent, InvStore]
  | msg t => exact invStore_handle_message gen st t hInv
  | cb d => exact invStore_callback gen st d hInv hok

/-- C8 counterexample: the frozen claim quantifies over arbitrary
explore_idea tokens.  A token carrying idea number seven is appended to
the explored list before the heading lookup faults, and the callback guard
keeps the session, leaving an explored list outside the one-to-three
range, so the claimed invariant fails. -/
theorem explored_invariant_cex :
    InvStore (some sampleSession) = true ∧
    (handleEvent genFail (Event.cb "explore_idea_7") (some sampleSession)).store =
      some { sampleSession with exploredIdeas := some [7] } ∧
    InvStore (some { sampleSession with exploredIdeas := some [7] }) = false := by
  refine ⟨by decide, by decide, by decide⟩

/-- C8 amended: for every event sequence in which explore_idea selections
carry one of the three menu idea numbers and arrive only while the session
(if any) has its headings populated, the explored-ideas collection stays
duplicate-free, inside the one-to-three range, and non-empty only with
populated headings.  (Without the restriction the invariant fails, see the
counterexample.) -/
theorem explored_invariant_amended (s t : Option Session)
    (hInv : InvStore s = true) (h : ReachOK s t) : InvStore t = true := by
  induction h with
  | refl => exact hInv
  | step gen ev hreach hok ih => exact invStore_step gen ev _ ih hok

/-- C8 amended witness: one well-formed exploration step from the sample
session preserves the invariant. -/
theorem explored_invariant_amended_witness :
    InvStore (some sampleSession) = true ∧
    InvStore (handleEvent genOk (Event.cb "explore_idea_2") (some sampleSession)).store =
      true :=
  ⟨by decide,
   explored_invariant_amended (some sampleSession) _ (by decide)
     (ReachOK.step genOk (Event.cb "explore_idea_2") (ReachOK.refl _) (by decide))⟩

/-! ### The message chunker. -/

theorem joinNl_cons (l : List Char) (ls : List (List Char)) (h : ls ≠ []) :
    joinNl (l :: ls) = l ++ '\n' :: joinNl ls := by
  cases ls with
  | nil => exact absurd rfl h
  | cons a t => rfl

theorem joinNl_append (A B : List (List Char)) (hA : A ≠ []) (hB : B ≠ []) :
    joinNl (A ++ B) = joinNl A ++ '\n' :: joinNl B := by
  induction A with
  | nil => exact absurd rfl hA
  | cons a t ih =>
    cases t with
    | nil =>
      rw [List.singleton_append, joinNl_cons a B hB]
      rfl
    | cons b t2 =>
      rw [List.cons_append, joinNl_cons a ((b :: t2) ++ B) (by simp),
        joinNl_cons a (b :: t2) (by simp), ih (by simp)]
      simp

theorem joinNl_ne_nil (l : List Char) (ls : List (List Char)) (h : l ≠ []) :
    joinNl (l :: ls) ≠ [] := by
  cases ls with
  | nil => simpa [joinNl] using h
  | cons a t => simp [joinNl]

theorem splitNl_ne_nil (t : List Char) : splitNl t ≠ [] := by
  induction t with
  | nil => simp [splitNl]
  | cons c r ih =>
    by_cases hc : c = '\n'
    · subst hc; simp [splitNl]
    · simp only [splitNl]
      split <;> simp

theorem joinNl_splitNl (t : List Char) : joinNl (splitNl t) = t := by
  induction t with
  | nil => rfl
  | cons c r ih =>
    by_cases hc : c = '\n'
    · subst hc
      rw [show splitNl ('\n' :: r) = [] :: splitNl r from rfl,
        joinNl_cons [] (splitNl r) (splitNl_ne_nil r), ih]
      rfl
    · rcases hsp : splitNl r with _ | ⟨h0, tl⟩
      · exact absurd hsp (splitNl_ne_nil r)
      · have hstep : splitNl (c :: r) = (c :: h0) :: tl := by
          simp only [splitNl]
          split <;> simp_all
        rw [hstep]
        cases tl with
        | nil =>
          rw [hsp] at ih
          simpa [joinNl] using congrArg (fun x => c :: x) ih
        | cons u v =>
          rw [joinNl_cons (c :: h0) (u :: v) (by simp)]
          rw [hsp, joinNl_cons h0 (u :: v) (by simp)] at ih
          simpa using congrArg (fun x => c :: x) ih

theorem smGo_ne_nil (maxLength : Nat) :
    ∀ (lines cur : List (List Char)) (curLen : Nat), cur ≠ [] →
      smGo maxLength lines cur curLen ≠ [] := by
  intro lines
  induction lines with
  | nil => intro cur curLen hcur; simp [smGo, hcur]
  | cons line rest ih =>
    intro cur curLen hcur
    simp only [smGo]
    split
    · simp
    · exact ih (cur ++ [line]) _ (by simp)

theorem smGo_join (maxLength : Nat) :
    ∀ (lines cur : List (List Char)) (curLen : Nat), cur ≠ [] →
      (∀ l ∈ lines, l.length + 1 ≤ maxLength) →
      joinNl (smGo maxLength lines cur curLen) = joinNl (cur ++ lines) := by
  intro lines
  induction lines with
  | nil => intro cur curLen hcur _; simp [smGo, hcur, joinNl]
  | cons line rest ih =>
    intro cur curLen hcur hfit
    have hline : line.length + 1 ≤ maxLength := hfit line (by simp)
    have hrest : ∀ l ∈ rest, l.length + 1 ≤ maxLength := fun l hl => hfit l (by simp [hl])
    simp only [smGo]
    split
    · rw [joinNl_cons _ _ (smGo_ne_nil maxLength rest [line] _ (by simp)),
        ih [line] _ (by simp) hrest, List.singleton_append,
        joinNl_append cur (line :: rest) hcur (by simp)]
    · rw [ih (cur ++ [line]) _ (by simp) hrest, List.append_assoc, List.singleton_append]

/-- C2 counterexample: with the text abc and max size three (the length of
the longest and only line) the chunker emits an empty first part and the
rejoined output gains a spurious leading line break. -/
theorem chunker_roundtrip_cex :
    (∀ l ∈ splitNl ['a', 'b', 'c'], l.length ≤ 3) ∧
    split_message ['a', 'b', 'c'] 3 = [[], ['a', 'b', 'c']] ∧
    ¬ joinNl (split_message ['a', 'b', 'c'] 3) = ['a', 'b', 'c'] := by
  refine ⟨by decide, by decide, by decide⟩

/-- C2 amended: for every input text and every max size strictly greater
than the length of the longest line (so that even the first line fits
together with its line-break allowance), joining the chunker's parts with
the line-break character reconstructs the input exactly. -/
theorem chunker_roundtrip (text : List Char) (maxLength : Nat)
    (h : ∀ l ∈ splitNl text, l.length + 1 ≤ maxLength) :
    joinNl (split_message text maxLength) = text := by
  unfold split_message
  rcases hsp : splitNl text with _ | ⟨l0, rest⟩
  · exact absurd hsp (splitNl_ne_nil text)
  have h0 : l0.length + 1 ≤ maxLength := by
    refine h l0 ?_
    rw [hsp]; simp
  have hnoseal : ¬ (0 + l0.length + 1 > maxLength) := by omega
  simp only [smGo, if_neg hnoseal]
  rw [smGo_join maxLength rest ([] ++ [l0]) _ (by simp)
    (fun l hl => h l (by rw [hsp]; simp [hl]))]
  rw [show ([] ++ [l0] : List (List Char)) ++ rest = l0 :: rest by simp, ← hsp,
    joinNl_splitNl]

/-- C2 amended witness on a two-line input. -/
theorem chunker_roundtrip_witness :
    (∀ l ∈ splitNl ['a', 'b', '\n', 'c', 'd'], l.length + 1 ≤ 4) ∧
    joinNl (split_message ['a', 'b', '\n', 'c', 'd'] 4) = ['a', 'b', '\n', 'c', 'd'] :=
  ⟨by decide, chunker_roundtrip ['a', 'b', '\n', 'c', 'd'] 4 (by decide)⟩

theorem smGo_all_fit (maxLength : Nat) :
    ∀ (lines cur : List (List Char)) (curLen : Nat), cur ≠ [] →
      curLen + ((lines.map (fun l => l.length + 1)).sum) ≤ maxLength →
      smGo maxLength lines cur curLen = [joinNl (cur ++ lines)] := by
  intro lines
  induction lines with
  | nil => intro cur curLen hcur _; simp [smGo, hcur, joinNl]
  | cons line rest ih =>
    intro cur curLen hcur hsum
    simp only [List.map_cons, List.sum_cons] at hsum
    have hnoseal : ¬ (curLen + line.length + 1 > maxLength) := by omega
    simp only [smGo, if_neg hnoseal]
    rw [ih (cur ++ [line]) _ (by simp) (by omega), List.append_assoc, List.singleton_append]

theorem splitNl_sum (t : List Char) :
    (((splitNl t).map (fun l => l.length + 1)).sum) = t.length + 1 := by
  induction t with
  | nil => rfl
  | cons c r ih =>
    by_cases hc : c = '\n'
    · subst hc
      rw [show splitNl ('\n' :: r) = [] :: splitNl r from rfl]
      simp only [List.map_cons, List.sum_cons, ih, List.length_nil, List.length_cons]
      omega
    · rcases hsp : splitNl r with _ | ⟨h0, tl⟩
      · exact absurd hsp (splitNl_ne_nil r)
      · have hstep : splitNl (c :: r) = (c :: h0) :: tl := by
          simp only [splitNl]
          split <;> simp_all
        rw [hstep]
        rw [hsp] at ih
        simp only [List.map_cons, List.sum_cons, List.length_cons] at ih ⊢
        omega

theorem smGo_no_empty (maxLength : Nat) :
    ∀ (lines cur : List (List Char)) (curLen : Nat), cur ≠ [] →
      (∀ l ∈ cur, l ≠ []) → (∀ l ∈ lines, l ≠ []) →
      ∀ p ∈ smGo maxLength lines cur curLen, p ≠ [] := by
  intro lines
  induction lines with
  | nil =>
    intro cur curLen hcur hcne _ p hp
    rcases cur with _ | ⟨c0, ct⟩
    · exact absurd rfl hcur
    · simp only [smGo] at hp
      rw [if_neg (by simp)] at hp
      rcases List.mem_singleton.mp hp with rfl
      exact joinNl_ne_nil c0 ct (hcne c0 (by simp))
  | cons line rest ih =>
    intro cur curLen hcur hcne hlne p hp
    simp only [smGo] at hp
    split at hp
    · rcases List.mem_cons.mp hp with rfl | hp2
      · rcases cur with _ | ⟨c0, ct⟩
        · exact absurd rfl hcur
        · exact joinNl_ne_nil c0 ct (hcne c0 (by simp))
      · exact ih [line] _ (by simp) (by simpa using hlne line (by simp))
          (fun l hl => hlne l (by simp [hl])) p hp2
    · exact ih (cur ++ [line]) _ (by simp)
        (by
          intro l hl
          rcases List.mem_append.mp hl with h | h
          · exact hcne l h
          · rcases List.mem_singleton.mp h with rfl
            exact hlne l (by simp))
        (fun l hl => hlne l (by simp [hl])) p hp

/-- C6 counterexample: on the empty input the chunker returns a single
part that is the empty string, refuting the unconditional no-empty-part
clause of the claim. -/
theorem chunker_parts_cex :
    split_message [] 4000 = [[]] ∧ [] ∈ split_message [] 4000 := by
  refine ⟨by decide, by decide⟩

/-- C6 amended: the chunker always returns a non-empty list of parts, an
input whose total size is under the max size comes back as exactly one
part equal to the input, and no part is empty provided every line of the
input is non-empty and the first line fits within the max size together
with its line-break allowance.  (An input with an empty line, such as the
empty text, can produce an empty part.) -/
theorem chunker_parts (text : List Char) (maxLength : Nat) :
    split_message text maxLength ≠ [] ∧
    (text.length < maxLength → split_message text maxLength = [text]) ∧
    (∀ l0 rest, splitNl text = l0 :: rest → l0.length + 1 ≤ maxLength →
      (∀ l ∈ splitNl text, l ≠ []) →
      ∀ p ∈ split_message text maxLength, p ≠ []) := by
  refine ⟨?_, ?_, ?_⟩
  · unfold split_message
    rcases hsp : splitNl text with _ | ⟨l0, rest⟩
    · exact absurd hsp (splitNl_ne_nil text)
    simp only [smGo]
    split
    · simp
    · exact smGo_ne_nil maxLength rest ([] ++ [l0]) _ (by simp)
  · intro hlen
    unfold split_message
    rcases hsp : splitNl text with _ | ⟨l0, rest⟩
    · exact absurd hsp (splitNl_ne_nil text)
    have hsum : (((splitNl text).map (fun l => l.length + 1)).sum) = text.length + 1 :=
      splitNl_sum text
    rw [hsp] at hsum
    simp only [List.map_cons, List.sum_cons] at hsum
    have hnoseal : ¬ (0 + l0.length + 1 > maxLength) := by omega
    simp only [smGo, if_neg hnoseal]
    rw [smGo_all_fit maxLength rest ([] ++ [l0]) _ (by simp) (by omega)]
    rw [show ([] ++ [l0] : List (List Char)) ++ rest = l0 :: rest by simp, ← hsp,
      joinNl_splitNl]
  · intro l0 rest hsp hfit hlines p hp
    unfold split_message at hp
    rw [hsp] at hp
    have hnoseal : ¬ (0 + l0.length + 1 > maxLength) := by omega
    simp only [smGo, if_neg hnoseal] at hp
    exact smGo_no_empty maxLength rest ([] ++ [l0]) _ (by simp)
      (by
        intro l hl
        rcases List.mem_singleton.mp (by simpa using hl) with rfl
        exact hlines l (by rw [hsp]; simp))
      (fun l hl => hlines l (by rw [hsp]; simp [hl])) p hp

/-- C6 amended witness on a two-line input under the default max size. -/
theorem chunker_parts_witness :
    (['a', 'b', '\n', 'c'] : List Char).length < 4000 ∧
    split_message ['a', 'b', '\n', 'c'] 4000 = [['a', 'b', '\n', 'c']] :=
  ⟨by decide, (chunker_parts ['a', 'b', '\n', 'c'] 4000).2.1 (by decide)⟩

/-! ### The response sanitizer: the delimiter-spacing substitution reaches
a fixed point, which is the heart of the idempotence analysis. -/

theorem bad_not_delim (c : Char) (h : isBad c = true) : isDelim c = false := by
  simp only [isBad, Bool.and_eq_true, Bool.not_eq_true'] at h
  exact h.2

theorem delim_not_bad (c : Char) (h : isDelim c = true) : isBad c = false := by
  simp [isBad, h]

theorem bad2At_not_delim (c : Char) (l : List Char) (hc : isDelim c = false) :
    bad2At (c :: l) = false := by
  cases l with
  | nil => rfl
  | cons d t => simp [bad2At, hc]

theorem noM2_cons (c : Char) (l : List Char) (hc : isDelim c = false)
    (h : noM2 l = true) : noM2 (c :: l) = true := by
  simp [noM2, bad2At_not_delim c l hc, h]

theorem noM2_tail (c : Char) (l : List Char) (h : noM2 (c :: l) = true) :
    noM2 l = true := by
  simp only [noM2, Bool.and_eq_true] at h
  exact h.2

/-- Every branch of the substitution keeps the first input character
first. -/
theorem sub2_head (c : Char) (r : List Char) : ∃ t, sub2 (c :: r) = c :: t := by
  cases r with
  | nil => exact ⟨[], rfl⟩
  | cons c2 r2 =>
    cases r2 with
    | nil =>
      simp only [sub2]
      split_ifs <;> exact ⟨_, rfl⟩
    | cons c3 r3 =>
      simp only [sub2]
      split_ifs <;> exact ⟨_, rfl⟩

/-- When the second character is not in the glued class, the substitution
keeps the first two characters in place. -/
theorem sub2_head2 (c2 c3 : Char) (r3 : List Char) (h : isBad c3 = false) :
    ∃ t, sub2 (c2 :: c3 :: r3) = c2 :: c3 :: t := by
  cases r3 with
  | nil =>
    simp only [sub2]
    split_ifs with h1 h2 h3 <;> first
      | exact ⟨_, rfl⟩
      | simp_all
      | exact ⟨[], rfl⟩
  | cons c4 r4 =>
    by_cases h1 : isDelim c2
    · by_cases h2 : isDelim c3
      · by_cases h3 : isBad c4
        · exact ⟨' ' :: c4 :: sub2 r4, by simp [sub2, h1, h2, h3]⟩
        · obtain ⟨t, ht⟩ := sub2_head c3 (c4 :: r4)
          exact ⟨t, by simp [sub2, h1, h2, h3, ht]⟩
      · obtain ⟨t, ht⟩ := sub2_head c3 (c4 :: r4)
        exact ⟨t, by simp [sub2, h1, h2, h, ht]⟩
    · obtain ⟨t, ht⟩ := sub2_head c3 (c4 :: r4)
      exact ⟨t, by simp [sub2, h1, ht]⟩

theorem noM2_cons_eq (c : Char) (l : List Char) :
    noM2 (c :: l) = (!bad2At (c :: l) && noM2 l) := rfl

theorem bad2At_cons (a b : Char) (t : List Char) :
    bad2At (a :: b :: t) =
      (isDelim a && (isBad b ||
        (isDelim b && (match t with | c :: _ => isBad c | [] => false)))) := rfl

theorem bad2At_cons3 (a b c : Char) (t : List Char) :
    bad2At (a :: b :: c :: t) =
      (isDelim a && (isBad b || (isDelim b && isBad c))) := rfl

/-- The output of the delimiter-spacing substitution contains no match of
its own pattern: scanning resumes after each replacement but the inserted
space and the examined-and-passed positions leave nothing to match. -/
theorem noM2_sub2 : ∀ l : List Char, noM2 (sub2 l) = true := by
  have e1 : isBad ' ' = false := by decide
  have e2 : isDelim ' ' = false := by decide
  intro l
  induction l using sub2.induct with
  | case1 => rfl
  | case2 c => rfl
  | case3 c1 c2 h1 h2 c3 rest3 h3 ih =>
    -- two delimiters then a glued character: replacement inserts a space
    rw [show sub2 (c1 :: c2 :: c3 :: rest3) = c1 :: c2 :: ' ' :: c3 :: sub2 rest3 from by
      simp [sub2, h1, h2, h3]]
    have t4 : noM2 (c3 :: sub2 rest3) = true := noM2_cons _ _ (bad_not_delim c3 h3) ih
    have t3 : noM2 (' ' :: c3 :: sub2 rest3) = true := noM2_cons _ _ e2 t4
    have t2 : noM2 (c2 :: ' ' :: c3 :: sub2 rest3) = true := by
      rw [noM2_cons_eq, bad2At_cons3, e1, e2]
      simp [t3]
    rw [noM2_cons_eq, bad2At_cons3, delim_not_bad c2 h2, e1]
    simp [t2]
  | case4 c1 c2 h1 h2 c3 rest3 h3 ih =>
    -- two delimiters, third position harmless: no match here, scan moves on
    rw [show sub2 (c1 :: c2 :: c3 :: rest3) = c1 :: sub2 (c2 :: c3 :: rest3) from by
      simp [sub2, h1, h2, h3]]
    have h3f : isBad c3 = false := by simpa using h3
    obtain ⟨t, ht⟩ := sub2_head2 c2 c3 rest3 h3f
    rw [ht] at ih ⊢
    rw [noM2_cons_eq, bad2At_cons3, delim_not_bad c2 h2, h3f]
    simp [ih]
  | case5 c1 c2 h1 h2 =>
    -- two characters left, both delimiters
    rw [show sub2 [c1, c2] = [c1, c2] from by simp [sub2, h1, h2]]
    rw [noM2_cons_eq, bad2At_cons, delim_not_bad c2 h2]
    simp [noM2, bad2At]
  | case6 c1 c2 rest h1 h2 h3 ih =>
    -- one delimiter then a glued character: replacement inserts a space
    rw [show sub2 (c1 :: c2 :: rest) = c1 :: ' ' :: c2 :: sub2 rest from by
      rw [sub2.eq_def]
      simp [h1, h2, h3]]
    have t3 : noM2 (c2 :: sub2 rest) = true := noM2_cons _ _ (bad_not_delim c2 h3) ih
    have t2 : noM2 (' ' :: c2 :: sub2 rest) = true := noM2_cons _ _ e2 t3
    rw [noM2_cons_eq, bad2At_cons3, e1, e2]
    simp [t2]
  | case7 c1 c2 rest h1 h2 h3 ih =>
    -- one delimiter then white space or a delimiter run end: no match
    rw [show sub2 (c1 :: c2 :: rest) = c1 :: sub2 (c2 :: rest) from by
      rw [sub2.eq_def]
      simp [h1, h2, h3]]
    obtain ⟨t, ht⟩ := sub2_head c2 rest
    rw [ht] at ih ⊢
    rw [noM2_cons_eq, bad2At_cons, show isBad c2 = false from by simpa using h3,
      show isDelim c2 = false from by simpa using h2]
    simp [ih]
  | case8 c1 c2 rest h1 ih =>
    -- head is not a delimiter
    rw [show sub2 (c1 :: c2 :: rest) = c1 :: sub2 (c2 :: rest) from by
      rw [sub2.eq_def]
      simp [h1]]
    exact noM2_cons _ _ (by simpa using h1) ih

/-- A list without a match is a fixed point of the substitution. -/
theorem sub2_id_of_noM2 : ∀ l : List Char, noM2 l = true → sub2 l = l := by
  intro l
  induction l using sub2.induct with
  | case1 => intro _; rfl
  | case2 c => intro _; rfl
  | case3 c1 c2 h1 h2 c3 rest3 h3 ih =>
    intro h
    exact absurd h (by simp [noM2, bad2At, h1, h2, h3])
  | case4 c1 c2 h1 h2 c3 rest3 h3 ih =>
    intro h
    rw [show sub2 (c1 :: c2 :: c3 :: rest3) = c1 :: sub2 (c2 :: c3 :: rest3) from by
      simp [sub2, h1, h2, h3]]
    rw [ih (noM2_tail _ _ h)]
  | case5 c1 c2 h1 h2 =>
    intro _
    simp [sub2, h1, h2]
  | case6 c1 c2 rest h1 h2 h3 ih =>
    intro h
    exact absurd h (by simp [noM2, bad2At, h1, h3])
  | case7 c1 c2 rest h1 h2 h3 ih =>
    intro h
    rw [show sub2 (c1 :: c2 :: rest) = c1 :: sub2 (c2 :: rest) from by
      rw [sub2.eq_def]
      simp [h1, h2, h3]]
    rw [ih (noM2_tail _ _ h)]
  | case8 c1 c2 rest h1 ih =>
    intro h
    rw [show sub2 (c1 :: c2 :: rest) = c1 :: sub2 (c2 :: rest) from by
      rw [sub2.eq_def]
      simp [h1]]
    rw [ih (noM2_tail _ _ h)]

/-! Absence of a match is inherited by contiguous pieces and by rejoining
stripped lines with line breaks, because a line break is white space. -/

theorem bad2At_append (l s : List Char) (h : bad2At l = true) :
    bad2At (l ++ s) = true := by
  cases l with
  | nil => simp [bad2At] at h
  | cons a l1 =>
    cases l1 with
    | nil => simp [bad2At] at h
    | cons b t =>
      rw [bad2At_cons] at h
      rw [List.cons_append, List.cons_append, bad2At_cons]
      cases t with
      | nil =>
        simp only [Bool.and_eq_true, Bool.or_eq_true] at h
        rcases h with ⟨ha, hb | hb⟩
        · simp [ha, hb]
        · simp at hb
      | cons c t2 => simpa using h

theorem noM2_append_left (l s : List Char) (h : noM2 (l ++ s) = true) :
    noM2 l = true := by
  induction l with
  | nil => rfl
  | cons c l1 ih =>
    rw [List.cons_append] at h
    have h2 := noM2_tail _ _ h
    rw [noM2_cons_eq] at h ⊢
    simp only [Bool.and_eq_true] at h
    have hb : bad2At (c :: l1) = false := by
      by_contra hcon
      have hbt : bad2At (c :: l1) = true := by simpa using hcon
      have := bad2At_append (c :: l1) s hbt
      rw [List.cons_append] at this
      rw [this] at h
      simpa using h.1
    simp [hb, ih h2]

theorem noM2_drop_left (s l : List Char) (h : noM2 (s ++ l) = true) :
    noM2 l = true := by
  induction s with
  | nil => exact h
  | cons c s1 ih => exact ih (noM2_tail _ _ h)

theorem noM2_within (l m : List Char) (h : l <:+: m) (hm : noM2 m = true) :
    noM2 l = true := by
  obtain ⟨s, t, rfl⟩ := h
  exact noM2_append_left l t (noM2_drop_left s (l ++ t)
    (by simpa [List.append_assoc] using hm))

theorem splitNl_head_pref :
    ∀ (r h0 : List Char) (tl : List (List Char)), splitNl r = h0 :: tl → h0 <+: r := by
  intro r
  induction r with
  | nil =>
    intro h0 tl h
    simp only [splitNl, List.cons.injEq] at h
    obtain ⟨rfl, rfl⟩ := h
    exact List.nil_prefix
  | cons c r2 ih =>
    intro h0 tl h
    by_cases hc : c = '\n'
    · subst hc
      rw [show splitNl ('\n' :: r2) = [] :: splitNl r2 from rfl] at h
      rw [← (List.cons.injEq _ _ _ _ |>.mp h).1]
      exact List.nil_prefix
    · rcases hsp : splitNl r2 with _ | ⟨h1, t1⟩
      · exact absurd hsp (splitNl_ne_nil r2)
      · have hstep : splitNl (c :: r2) = (c :: h1) :: t1 := by
          simp only [splitNl]
          split <;> simp_all
        rw [hstep] at h
        rw [← (List.cons.injEq _ _ _ _ |>.mp h).1]
        exact (List.prefix_cons_inj c).mpr (ih h1 t1 hsp)

theorem splitNl_within : ∀ (l p : List Char), p ∈ splitNl l → p <:+: l := by
  intro l
  induction l with
  | nil =>
    intro p hp
    simp only [splitNl, List.mem_singleton] at hp
    subst hp
    exact List.nil_infix
  | cons c r ih =>
    intro p hp
    by_cases hc : c = '\n'
    · subst hc
      rw [show splitNl ('\n' :: r) = [] :: splitNl r from rfl] at hp
      rcases List.mem_cons.mp hp with rfl | hp2
      · exact List.nil_infix
      · exact List.infix_cons (ih p hp2)
    · rcases hsp : splitNl r with _ | ⟨h1, t1⟩
      · exact absurd hsp (splitNl_ne_nil r)
      · have hstep : splitNl (c :: r) = (c :: h1) :: t1 := by
          simp only [splitNl]
          split <;> simp_all
        rw [hstep] at hp
        rcases List.mem_cons.mp hp with rfl | hp2
        · exact ((List.prefix_cons_inj c).mpr (splitNl_head_pref r h1 t1 hsp)).isInfix
        · refine List.infix_cons (ih p ?_)
          rw [hsp]
          exact List.mem_cons_of_mem _ hp2

/-- The strip of bot.py in terms of the library drop-from-both-ends
operations. -/
theorem pyStrip_eq (l : List Char) :
    pyStrip l = List.rdropWhile isPySpace (List.dropWhile isPySpace l) := rfl

theorem pyStrip_within (l : List Char) : pyStrip l <:+: l := by
  rw [pyStrip_eq]
  exact ((List.rdropWhile_prefix isPySpace _).isInfix).trans
    ((List.dropWhile_suffix isPySpace).isInfix)

theorem dropWhile_of_pref {p : Char → Bool} (m k : List Char)
    (hm : List.dropWhile p m = m) (hk : k <+: m) : List.dropWhile p k = k := by
  rw [List.dropWhile_eq_self_iff] at hm ⊢
  intro hl
  have hlen : 0 < m.length := lt_of_lt_of_le hl hk.length_le
  have hget : k.get ⟨0, hl⟩ = m.get ⟨0, hlen⟩ := by
    simpa using hk.getElem (n := 0) hl
  rw [hget]
  exact hm hlen

theorem pyStrip_idem (l : List Char) : pyStrip (pyStrip l) = pyStrip l := by
  rw [pyStrip_eq, pyStrip_eq]
  have hfix : List.dropWhile isPySpace
      (List.rdropWhile isPySpace (List.dropWhile isPySpace l)) =
      List.rdropWhile isPySpace (List.dropWhile isPySpace l) :=
    dropWhile_of_pref _ _ (List.dropWhile_idempotent _ _) (List.rdropWhile_prefix _ _)
  rw [hfix, List.rdropWhile_idempotent]

theorem bad2At_append_nl (c d : Char) (x y : List Char) :
    bad2At (c :: d :: (x ++ '\n' :: y)) = bad2At (c :: d :: x) := by
  cases x with
  | nil =>
    rw [List.nil_append, bad2At_cons3, bad2At_cons]
    simp [show isBad '\n' = false from by decide]
  | cons e t => rfl

theorem noM2_append_nl (a b : List Char) (ha : noM2 a = true) (hb : noM2 b = true) :
    noM2 (a ++ '\n' :: b) = true := by
  induction a with
  | nil => exact noM2_cons _ _ (by decide) hb
  | cons c a1 ih =>
    rw [List.cons_append, noM2_cons_eq]
    have htail := ih (noM2_tail _ _ ha)
    have hhead : bad2At (c :: (a1 ++ '\n' :: b)) = false := by
      cases a1 with
      | nil =>
        rw [List.nil_append, bad2At_cons]
        simp [show isBad '\n' = false from by decide, show isDelim '\n' = false from by decide]
      | cons d a2 =>
        rw [List.cons_append, bad2At_append_nl]
        rw [noM2_cons_eq] at ha
        simp only [Bool.and_eq_true] at ha
        simpa using ha.1
    simp [hhead, htail]

theorem noM2_join (L : List (List Char)) (h : ∀ p ∈ L, noM2 p = true) :
    noM2 (joinNl L) = true := by
  induction L with
  | nil => rfl
  | cons a t ih =>
    cases t with
    | nil => simpa [joinNl] using h a (by simp)
    | cons b t2 =>
      rw [joinNl_cons a (b :: t2) (by simp)]
      exact noM2_append_nl a (joinNl (b :: t2)) (h a (by simp))
        (ih (fun p hp => h p (by simp [hp])))

theorem noM2_normalizeLines (z : List Char) (h : noM2 z = true) :
    noM2 (normalizeLines z) = true := by
  unfold normalizeLines
  refine noM2_join _ ?_
  intro p hp
  rcases List.mem_filter.mp hp with ⟨hp2, _⟩
  rcases List.mem_map.mp hp2 with ⟨q, hq, rfl⟩
  exact noM2_within _ z ((pyStrip_within q).trans (splitNl_within z q hq)) h

/-! Idempotence of the line-normalization step. -/

theorem splitNl_no_nl : ∀ (l p : List Char), p ∈ splitNl l → '\n' ∉ p := by
  intro l
  induction l with
  | nil =>
    intro p hp
    simp only [splitNl, List.mem_singleton] at hp
    subst hp
    simp
  | cons c r ih =>
    intro p hp
    by_cases hc : c = '\n'
    · subst hc
      rw [show splitNl ('\n' :: r) = [] :: splitNl r from rfl] at hp
      rcases List.mem_cons.mp hp with rfl | hp2
      · simp
      · exact ih p hp2
    · rcases hsp : splitNl r with _ | ⟨h1, t1⟩
      · exact absurd hsp (splitNl_ne_nil r)
      · have hstep : splitNl (c :: r) = (c :: h1) :: t1 := by
          simp only [splitNl]
          split <;> simp_all
        rw [hstep] at hp
        rcases List.mem_cons.mp hp with rfl | hp2
        · intro hmem
          rcases List.mem_cons.mp hmem with h | h
          · exact hc h.symm
          · exact ih h1 (by rw [hsp]; simp) h
        · refine ih p ?_
          rw [hsp]
          exact List.mem_cons_of_mem _ hp2

theorem splitNl_of_no_nl : ∀ l : List Char, '\n' ∉ l → splitNl l = [l] := by
  intro l
  induction l with
  | nil => intro _; rfl
  | cons c r ih =>
    intro h
    have hc : ¬ c = '\n' := fun e => h (by simp [e])
    have hr : '\n' ∉ r := fun e => h (List.mem_cons_of_mem _ e)
    have hrec := ih hr
    simp only [splitNl]
    split <;> simp_all

theorem splitNl_append_nl : ∀ (a b : List Char), '\n' ∉ a →
    splitNl (a ++ '\n' :: b) = a :: splitNl b := by
  intro a
  induction a with
  | nil => intro b _; rfl
  | cons c a1 ih =>
    intro b h
    have hc : ¬ c = '\n' := fun e => h (by simp [e])
    have ha1 : '\n' ∉ a1 := fun e => h (List.mem_cons_of_mem _ e)
    have hrec := ih b ha1
    rw [List.cons_append]
    simp only [splitNl]
    split <;> simp_all

theorem splitNl_joinNl : ∀ L : List (List Char), (∀ p ∈ L, '\n' ∉ p) → L ≠ [] →
    splitNl (joinNl L) = L := by
  intro L
  induction L with
  | nil => intro _ hne; exact absurd rfl hne
  | cons a t ih =>
    intro h _
    cases t with
    | nil => exact splitNl_of_no_nl a (h a (by simp))
    | cons b t2 =>
      rw [joinNl_cons a (b :: t2) (by simp),
        splitNl_append_nl a (joinNl (b :: t2)) (h a (by simp)),
        ih (fun p hp => h p (by simp [hp])) (by simp)]

theorem normalizeLines_idem (z : List Char) :
    normalizeLines (normalizeLines z) = normalizeLines z := by
  unfold normalizeLines
  set L := ((splitNl z).map pyStrip).filter (fun t => ¬ t = []) with hL
  by_cases hne : L = []
  · rw [hne]; rfl
  · have hmem : ∀ p ∈ L, '\n' ∉ p ∧ p ≠ [] ∧ pyStrip p = p := by
      intro p hp
      rw [hL] at hp
      rcases List.mem_filter.mp hp with ⟨hp2, hpe⟩
      rcases List.mem_map.mp hp2 with ⟨q, hq, rfl⟩
      refine ⟨?_, by simpa using hpe, pyStrip_idem q⟩
      intro hmm
      exact splitNl_no_nl z q hq ((pyStrip_within q).subset hmm)
    rw [splitNl_joinNl L (fun p hp => (hmem p hp).1) hne]
    rw [List.map_congr_left (g := id) (fun p hp => (hmem p hp).2.2), List.map_id]
    rw [List.filter_eq_self.mpr (fun p hp => by simpa using (hmem p hp).2.1)]

/-! Identity of the remaining substitutions on the relevant inputs, and
which characters each stage can introduce. -/

theorem sub1Fuel_id (fuel : Nat) : ∀ l : List Char, (∀ c ∈ l, ¬ c = '#') →
    sub1Fuel fuel l = l := by
  induction fuel with
  | zero => intro l _; rfl
  | succ f ih =>
    intro l h
    cases l with
    | nil => rfl
    | cons c r =>
      have hc : (c == '#') = false := by simpa using h c (by simp)
      simp only [sub1Fuel, hc, Bool.false_eq_true, if_false]
      rw [ih r (fun d hd => h d (by simp [hd]))]

theorem sub3Go_id : ∀ (b : Bool) (l : List Char), (∀ c ∈ l, isAsciiC c = true) →
    sub3Go b l = l := by
  intro b l
  induction l generalizing b with
  | nil => intro _; rfl
  | cons c r ih =>
    intro h
    have hc := h c (by simp)
    simp only [sub3Go, hc, if_true]
    rw [ih false (fun d hd => h d (by simp [hd]))]

theorem mem_sub2 : ∀ (l : List Char) (c : Char), c ∈ sub2 l → c ∈ l ∨ c = ' ' := by
  intro l
  induction l using sub2.induct with
  | case1 => intro c hc; simp [sub2] at hc
  | case2 d =>
    intro c hc
    simp only [sub2, List.mem_singleton] at hc
    exact Or.inl (by simp [hc])
  | case3 c1 c2 h1 h2 c3 rest3 h3 ih =>
    intro c hc
    rw [show sub2 (c1 :: c2 :: c3 :: rest3) = c1 :: c2 :: ' ' :: c3 :: sub2 rest3 from by
      simp [sub2, h1, h2, h3]] at hc
    simp only [List.mem_cons] at hc
    rcases hc with rfl | rfl | rfl | rfl | h
    · exact Or.inl (by simp)
    · exact Or.inl (by simp)
    · exact Or.inr rfl
    · exact Or.inl (by simp)
    · rcases ih c h with h2 | h2
      · exact Or.inl (by simp [h2])
      · exact Or.inr h2
  | case4 c1 c2 h1 h2 c3 rest3 h3 ih =>
    intro c hc
    rw [show sub2 (c1 :: c2 :: c3 :: rest3) = c1 :: sub2 (c2 :: c3 :: rest3) from by
      simp [sub2, h1, h2, h3]] at hc
    rcases List.mem_cons.mp hc with rfl | h
    · exact Or.inl (by simp)
    · rcases ih c h with h2 | h2
      · exact Or.inl (by simpa using Or.inr (List.mem_cons.mp h2))
      · exact Or.inr h2
  | case5 c1 c2 h1 h2 =>
    intro c hc
    rw [show sub2 [c1, c2] = [c1, c2] from by simp [sub2, h1, h2]] at hc
    exact Or.inl hc
  | case6 c1 c2 rest h1 h2 h3 ih =>
    intro c hc
    rw [show sub2 (c1 :: c2 :: rest) = c1 :: ' ' :: c2 :: sub2 rest from by
      rw [sub2.eq_def]
      simp [h1, h2, h3]] at hc
    simp only [List.mem_cons] at hc
    rcases hc with rfl | rfl | rfl | h
    · exact Or.inl (by simp)
    · exact Or.inr rfl
    · exact Or.inl (by simp)
    · rcases ih c h with h2 | h2
      · exact Or.inl (by simp [h2])
      · exact Or.inr h2
  | case7 c1 c2 rest h1 h2 h3 ih =>
    intro c hc
    rw [show sub2 (c1 :: c2 :: rest) = c1 :: sub2 (c2 :: rest) from by
      rw [sub2.eq_def]
      simp [h1, h2, h3]] at hc
    rcases List.mem_cons.mp hc with rfl | h
    · exact Or.inl (by simp)
    · rcases ih c h with h2 | h2
      · exact Or.inl (by simpa using Or.inr (List.mem_cons.mp h2))
      · exact Or.inr h2
  | case8 c1 c2 rest h1 ih =>
    intro c hc
    rw [show sub2 (c1 :: c2 :: rest) = c1 :: sub2 (c2 :: rest) from by
      rw [sub2.eq_def]
      simp [h1]] at hc
    rcases List.mem_cons.mp hc with rfl | h
    · exact Or.inl (by simp)
    · rcases ih c h with h2 | h2
      · exact Or.inl (by simpa using Or.inr (List.mem_cons.mp h2))
      · exact Or.inr h2

theorem mem_joinNl : ∀ (L : List (List Char)) (c : Char), c ∈ joinNl L →
    (∃ p ∈ L, c ∈ p) ∨ c = '\n' := by
  intro L
  induction L with
  | nil => intro c hc; simp [joinNl] at hc
  | cons a t ih =>
    cases t with
    | nil =>
      intro c hc
      exact Or.inl ⟨a, by simp, by simpa [joinNl] using hc⟩
    | cons b t2 =>
      intro c hc
      rw [joinNl_cons a (b :: t2) (by simp)] at hc
      rcases List.mem_append.mp hc with h | h
      · exact Or.inl ⟨a, by simp, h⟩
      · rcases List.mem_cons.mp h with rfl | h2
        · exact Or.inr rfl
        · rcases ih c h2 with ⟨p, hp, hcp⟩ | rfl
          · exact Or.inl ⟨p, by simp [hp], hcp⟩
          · exact Or.inr rfl

theorem mem_normalizeLines (z : List Char) (c : Char) (h : c ∈ normalizeLines z) :
    c ∈ z ∨ c = '\n' := by
  unfold normalizeLines at h
  rcases mem_joinNl _ c h with ⟨p, hp, hcp⟩ | rfl
  · rcases List.mem_filter.mp hp with ⟨hp2, _⟩
    rcases List.mem_map.mp hp2 with ⟨q, hq, rfl⟩
    exact Or.inl ((splitNl_within z q hq).subset ((pyStrip_within q).subset hcp))
  · exact Or.inr rfl

/-- C3 counterexample: the header-rewriting substitution captures
everything after the first numbered header up to the line end, so a second
numbered header survives inside the rewritten text and fires again on the
second pass; the sanitizer is not idempotent. -/
theorem sanitizer_idempotent_cex :
    clean_response ("# 1. # 2. hi".data) = ("** # 2. hi**").data ∧
    clean_response (clean_response ("# 1. # 2. hi".data)) = ("** ** hi****").data ∧
    ¬ clean_response (clean_response ("# 1. # 2. hi".data)) =
        clean_response ("# 1. # 2. hi".data) := by
  refine ⟨by decide, by decide, by decide⟩

/-- C3 amended: the sanitizer is idempotent on every input that is ASCII
and free of the number sign, which covers every text the header rule
cannot re-fire on: the delimiter-spacing substitution reaches a fixed
point in one pass, the non-ASCII substitution is the identity there, and
the line normalization is idempotent. -/
theorem sanitizer_idempotent (l : List Char)
    (hhash : ∀ c ∈ l, ¬ c = '#') (hascii : ∀ c ∈ l, isAsciiC c = true) :
    clean_response (clean_response l) = clean_response l := by
  have h1 : sub1Fuel l.length l = l := sub1Fuel_id l.length l hhash
  have hs2ascii : ∀ c ∈ sub2 l, isAsciiC c = true := by
    intro c hc
    rcases mem_sub2 l c hc with h | rfl
    · exact hascii c h
    · decide
  have h3 : sub3 (sub2 l) = sub2 l := by
    unfold sub3
    exact sub3Go_id false _ hs2ascii
  have hcr : clean_response l = normalizeLines (sub2 l) := by
    unfold clean_response
    rw [h1, h3]
  have hyhash : ∀ c ∈ normalizeLines (sub2 l), ¬ c = '#' := by
    intro c hc
    rcases mem_normalizeLines _ c hc with h | rfl
    · rcases mem_sub2 l c h with h2 | rfl
      · exact hhash c h2
      · decide
    · decide
  have hyascii : ∀ c ∈ normalizeLines (sub2 l), isAsciiC c = true := by
    intro c hc
    rcases mem_normalizeLines _ c hc with h | rfl
    · exact hs2ascii c h
    · decide
  have hynoM2 : noM2 (normalizeLines (sub2 l)) = true :=
    noM2_normalizeLines _ (noM2_sub2 l)
  rw [hcr]
  unfold clean_response
  rw [sub1Fuel_id _ _ hyhash, sub2_id_of_noM2 _ hynoM2]
  rw [show sub3 (normalizeLines (sub2 l)) = normalizeLines (sub2 l) from by
    unfold sub3
    exact sub3Go_id false _ hyascii]
  exact normalizeLines_idem (sub2 l)

/-- C3 amended witness on a hash-free ASCII text with markup. -/
theorem sanitizer_idempotent_witness :
    (∀ c ∈ ("**Idea 1: T**\nplain *text".data), ¬ c = '#') ∧
    clean_response (clean_response ("**Idea 1: T**\nplain *text".data)) =
      clean_response ("**Idea 1: T**\nplain *text".data) :=
  ⟨by decide, sanitizer_idempotent ("**Idea 1: T**\nplain *text".data)
    (by decide) (by decide)⟩

end Forge
